import Mathlib

/-!
Verification development for the interactive narrative creator core.

The development shallowly embeds two modules of the repository:

* `Client` models `src/client/utils/narrative_graph.py`: the in-memory
  narrative graph (nodes, events, actions, action bindings), binding
  validation, node removal and the reachability analysis.  Python dicts
  are modelled as insertion-ordered association lists, Python sets as
  lists used only through membership, and exceptions as `Option`/`Except`
  results.  A binding holds the id of its target node (the code only
  ever uses `binding.target_node.id`).

* `Server` models the persistence layer of
  `src/server/app/repositories.py` together with the row types of
  `src/server/app/database.py`: the entity store (projects, nodes,
  events, actions, action bindings), the story history ledger and the
  snapshot / rollback subsystem.  A SQLAlchemy session is modelled by
  explicit state passing on a `ServerDB` record; a query is a filter
  over the corresponding table list; `db.rollback()` on the failure
  path of `restore_snapshot` returns the state the call started from
  (the call commits nothing before that point, so with no in-flight
  mutation the pre-call state is exactly what the rollback restores).
  Python string slicing `s[:k]` is `pyTake`, Python truthiness of an
  optional string is `pyTruthy`, machine time stamps are a logical
  clock `Nat` carried in the state.
-/

namespace Client

/-- Python dict-valued metadata, kept abstract as an association list. -/
abbrev Meta := List (String × String)

/-- `Action` dataclass of narrative_graph.py. -/
structure Action where
  id : String
  description : String
  is_key_action : Bool
  metadata : Meta
deriving DecidableEq

/-- `Event` dataclass of narrative_graph.py. -/
structure Event where
  id : String
  speaker : String
  content : String
  timestamp : Int
  event_type : String
  metadata : Meta
  description : String
  actions : List Action
deriving DecidableEq

/-- `Event.add_action`: appends the action only when it is not a key action. -/
def Event.add_action (e : Event) (a : Action) : Event :=
  if ¬ a.is_key_action then { e with actions := e.actions ++ [a] } else e

/-- `ActionBinding` dataclass; `target_node` stores the id of the bound
target node object (the code only reads `target_node.id`). -/
structure ActionBinding where
  action : Action
  target_node : Option String
  target_event : Option Event
deriving DecidableEq

/-- `ActionBinding.validate`. -/
def ActionBinding.validate (b : ActionBinding) : Bool :=
  if b.action.is_key_action then b.target_node.isSome && b.target_event.isNone
  else b.target_event.isSome && b.target_node.isNone

/-- `Node` dataclass of narrative_graph.py. -/
structure Node where
  id : String
  scene : String
  events : List Event
  outgoing_actions : List ActionBinding
  metadata : Meta
deriving DecidableEq

/-- `Node.add_action_binding`: appends the binding iff it validates;
returns the updated node and the boolean result. -/
def Node.add_action_binding (n : Node) (b : ActionBinding) : Node × Bool :=
  if b.validate then ({ n with outgoing_actions := n.outgoing_actions ++ [b] }, true)
  else (n, false)

/-- `Node.get_key_actions`. -/
def Node.get_key_actions (n : Node) : List ActionBinding :=
  n.outgoing_actions.filter (fun b => b.action.is_key_action)

/-- `NarrativeGraph`; `nodes` is the insertion-ordered dict from node id
to node. -/
structure NarrativeGraph where
  title : String
  nodes : List (String × Node)
  start_node_id : Option String
deriving DecidableEq

/-- `NarrativeGraph.get_node` (`self.nodes.get(node_id)`). -/
def NarrativeGraph.get_node (g : NarrativeGraph) (node_id : String) : Option Node :=
  (g.nodes.find? (fun p => p.1 = node_id)).map Prod.snd

/-- The key list of the `nodes` dict. -/
def NarrativeGraph.keys (g : NarrativeGraph) : List String :=
  g.nodes.map Prod.fst

/-- `NarrativeGraph.bind_action`: validates the four illegal
combinations with a `ValueError` (modelled by `Except.error`), then adds
the binding to `node_from` via `add_action_binding`. -/
def bind_action (node_from : Node) (action : Action)
    (node_to : Option Node) (event : Option Event) : Except String (Node × Bool) :=
  if action.is_key_action ∧ node_to = none then
    Except.error ("Key actions must specify a target node")
  else if ¬ action.is_key_action ∧ event = none then
    Except.error ("Regular actions must specify a target event")
  else if action.is_key_action ∧ event ≠ none then
    Except.error ("Key actions cannot have target events")
  else if ¬ action.is_key_action ∧ node_to ≠ none then
    Except.error ("Regular actions cannot have target nodes")
  else
    Except.ok (node_from.add_action_binding
      { action := action, target_node := node_to.map (fun n => n.id), target_event := event })

/-- `NarrativeGraph.remove_node`: returns the updated graph and the
boolean result.  Bindings targeting the node are scrubbed from every
node, the start pointer is moved to the first remaining key when it
pointed at the removed node, then the dict entry is deleted. -/
def NarrativeGraph.remove_node (g : NarrativeGraph) (node_id : String) :
    NarrativeGraph × Bool :=
  if (g.get_node node_id).isNone then (g, false)
  else
    let scrubbed := g.nodes.map (fun p =>
      (p.1, { p.2 with outgoing_actions := p.2.outgoing_actions.filter (fun b =>
        b.target_node = none ∨ b.target_node ≠ some node_id) }))
    let start' :=
      if g.start_node_id = some node_id then
        ((g.keys.filter (fun nid => nid ≠ node_id)).head?)
      else g.start_node_id
    ({ g with nodes := scrubbed.filter (fun p => p.1 ≠ node_id), start_node_id := start' }, true)

/-- The ids pushed from a node during the traversal: targets of key
action bindings that have a target node. -/
def keyTargets (n : Node) : List String :=
  n.get_key_actions.filterMap (fun b => b.target_node)

/-- The while loop of `get_reachable_nodes`.  `none` models the
`KeyError` raised by `self.nodes[current_id]` when a pushed id is not a
key of the dict.  The Python stack pushes at the end and pops from the
end, which is `pushes.reverse ++ rest` with the head as the top. -/
def NarrativeGraph.dfsVisit (g : NarrativeGraph) (stack visited : List String) :
    Option (List String) :=
  match stack with
  | [] => some visited
  | current :: rest =>
    if hcv : current ∈ visited then g.dfsVisit rest visited
    else
      match h : g.nodes.find? (fun p => p.1 = current) with
      | none => none
      | some pr =>
        g.dfsVisit
          (((keyTargets pr.2).filter (fun t => t ∉ current :: visited)).reverse ++ rest)
          (current :: visited)
termination_by ((g.keys.filter (fun k => k ∉ visited)).length, stack.length)
decreasing_by
  · apply Prod.Lex.right
    exact Nat.lt_succ_self _
  · apply Prod.Lex.left
    have hpred : pr.1 = current := by
      have := List.find?_some h
      simpa using this
    have hmem : current ∈ g.keys := by
      have := List.mem_of_find?_eq_some h
      exact hpred ▸ List.mem_map_of_mem Prod.fst this
    have hgen : ∀ (l : List String), current ∈ l →
        (l.filter (fun k => k ∉ current :: visited)).length <
          (l.filter (fun k => k ∉ visited)).length := by
      intro l hl
      induction l with
      | nil => exact absurd hl (List.not_mem_nil _)
      | cons b l ih =>
        have hmono : (l.filter (fun k => k ∉ current :: visited)).length ≤
            (l.filter (fun k => k ∉ visited)).length := by
          apply List.Sublist.length_le
          apply List.monotone_filter_right
          intro x hx
          simp only [decide_eq_true_eq] at hx ⊢
          exact fun hm => hx (List.mem_cons_of_mem _ hm)
        by_cases hbc : b = current
        · subst hbc
          have h1 : (decide (b ∉ b :: visited)) = false := by simp
          have h2 : (decide (b ∉ visited)) = true := by simpa using hcv
          simp only [List.filter_cons, h1, h2]
          simp only [if_true, Bool.false_eq_true, if_false, List.length_cons]
          omega
        · have hl' : current ∈ l := by
            rcases List.mem_cons.mp hl with heq | hmem'
            · exact absurd heq.symm hbc
            · exact hmem'
          by_cases hbv : b ∈ visited
          · have h1 : (decide (b ∉ current :: visited)) = false := by simp [hbv]
            have h2 : (decide (b ∉ visited)) = false := by simp [hbv]
            simp only [List.filter_cons, h1, h2]
            simp only [Bool.false_eq_true, if_false]
            exact ih hl'
          · have h1 : (decide (b ∉ current :: visited)) = true := by simp [hbc, hbv]
            have h2 : (decide (b ∉ visited)) = true := by simp [hbv]
            simp only [List.filter_cons, h1, h2]
            simp only [if_true, List.length_cons]
            have := ih hl'
            omega
    exact hgen g.keys hmem

/-- Python `a or b` on optional strings: the left value wins unless it
is falsy (absent or empty). -/
def pyOrStr (a b : Option String) : Option String :=
  match a with
  | some s => if s = "" then b else some s
  | none => b

/-- `NarrativeGraph.get_reachable_nodes`: resolves the start id with
`start_node_id or self.start_node_id`, returns the empty set when it is
falsy or not a key, otherwise runs the traversal. -/
def NarrativeGraph.get_reachable_nodes (g : NarrativeGraph)
    (start_node_id : Option String) : Option (List String) :=
  match pyOrStr start_node_id g.start_node_id with
  | none => some []
  | some s => if s = "" ∨ g.get_node s = none then some [] else g.dfsVisit [s] []

/-- `NarrativeGraph.get_unreachable_nodes`: all nodes whose id is not in
`get_reachable_nodes()`. -/
def NarrativeGraph.get_unreachable_nodes (g : NarrativeGraph) : Option (List Node) :=
  (g.get_reachable_nodes none).map (fun reachable =>
    (g.nodes.filter (fun p => p.1 ∉ reachable)).map Prod.snd)

/-- One key-action edge of the graph: the source id resolves (first
match in the dict) to a node and the target id is one of its key action
targets. -/
def KeyEdge (g : NarrativeGraph) (x t : String) : Prop :=
  ∃ pr, g.nodes.find? (fun p => p.1 = x) = some pr ∧ t ∈ keyTargets pr.2

/-- Reachability along key-action edges, the specification-side
counterpart of the iterative traversal. -/
inductive Reaches (g : NarrativeGraph) (s : String) : String → Prop
  | refl : Reaches g s s
  | step {x t : String} : Reaches g s x → KeyEdge g x t → Reaches g s t

/-- Every key-action target mentioned anywhere in the graph is a key of
the nodes dict (the shape maintained by `bind_action_by_id` and
`remove_node`). -/
def Closed (g : NarrativeGraph) : Prop :=
  ∀ pr ∈ g.nodes, ∀ t ∈ keyTargets pr.2, t ∈ g.keys

/-- The start id the traversal actually uses when called with no
argument, reduced to `none` in the cases where the code returns the
empty set immediately. -/
def effectiveStart (g : NarrativeGraph) : Option String :=
  match g.start_node_id with
  | none => none
  | some s => if s = "" ∨ g.get_node s = none then none else some s

end Client

namespace Server

/-- Python truthiness of an optional string: `None` and `""` are falsy. -/
def pyTruthy : Option String → Bool
  | none => false
  | some s => s ≠ ""

/-- Python slicing `s[:k]`: identity when the string is short enough,
otherwise the first `k` characters. -/
def pyTake (k : Nat) (s : String) : String :=
  if s.length ≤ k then s else String.mk (s.data.take k)

/-- JSON-valued metadata columns, kept abstract. -/
abbrev Meta := String

/-- Row of `narrative_projects` (the columns the core reads or writes). -/
structure Project where
  id : String
  title : String
  description : String
  start_node_id : Option String
deriving DecidableEq

/-- Row of `narrative_nodes`. -/
structure DBNode where
  id : String
  project_id : String
  scene : String
  node_type : String
  level : Int
  parent_node_id : Option String
  meta_data : Meta
deriving DecidableEq

/-- Row of `narrative_events`. -/
structure DBEvent where
  id : String
  node_id : String
  speaker : String
  content : String
  description : String
  timestamp : Int
  event_type : String
  meta_data : Meta
deriving DecidableEq

/-- Row of `actions`. -/
structure DBAction where
  id : String
  event_id : Option String
  description : String
  is_key_action : Bool
  meta_data : Meta
deriving DecidableEq

/-- Row of `action_bindings`. -/
structure DBBinding where
  id : String
  action_id : String
  source_node_id : String
  target_node_id : Option String
  target_event_id : Option String
deriving DecidableEq

/-- One event of a snapshot document, as built by
`_create_current_snapshot`. -/
structure EventDoc where
  id : String
  speaker : String
  content : String
  description : String
  timestamp : Int
  event_type : String
  meta_data : Meta
deriving DecidableEq

/-- The embedded action copy of a snapshot binding entry. -/
structure ActionInfoDoc where
  id : String
  description : String
  is_key_action : Bool
  meta_data : Meta
deriving DecidableEq

/-- One binding entry of a snapshot document (`binding_id`, the embedded
action, and the two optional targets). -/
structure ActionDoc where
  binding_id : String
  action : ActionInfoDoc
  target_node_id : Option String
  target_event_id : Option String
deriving DecidableEq

/-- One node of a snapshot document. -/
structure NodeDoc where
  id : String
  scene : String
  node_type : String
  level : Int
  parent_node_id : Option String
  meta_data : Meta
  events : List EventDoc
  actions : List ActionDoc
deriving DecidableEq

/-- The `project_info` part of a snapshot document. -/
structure ProjInfoDoc where
  id : String
  title : String
  description : String
  start_node_id : Option String
deriving DecidableEq

/-- The dynamic value found under the `nodes` key of a stored snapshot:
either a dict of node documents or some other JSON value. -/
inductive RawNodes where
  | notDict : RawNodes
  | dict : List (String × NodeDoc) → RawNodes
deriving DecidableEq

/-- A stored `snapshot_data` value: `None` or a non-dict JSON value
(`notDict`), the falsy empty dict (`emptyDict`), or a non-empty dict
with optional `nodes` and `project_info` entries. -/
inductive RawSnap where
  | notDict : RawSnap
  | emptyDict : RawSnap
  | dict : Option RawNodes → Option ProjInfoDoc → RawSnap
deriving DecidableEq

/-- Row of `story_edit_history`.  Primary keys and creation times are
drawn from the logical clock of the store, so `id = created_at`. -/
structure HistEntry where
  id : Nat
  project_id : String
  user_id : String
  snapshot_data : RawSnap
  operation_type : String
  operation_description : String
  affected_node_id : Option String
  created_at : Nat
deriving DecidableEq

/-- The whole persistent store: one list per table plus the logical
clock used for history ids / creation times. -/
structure ServerDB where
  projects : List Project
  nodes : List DBNode
  events : List DBEvent
  actions : List DBAction
  bindings : List DBBinding
  history : List HistEntry
  clock : Nat
deriving DecidableEq

/-- `ActionRepository.create_action_binding`: builds the row from the
four arguments and persists it with no validation of any kind.  The
fresh primary key is passed in. -/
def create_action_binding (σ : ServerDB) (action_id source_node_id : String)
    (target_node_id target_event_id : Option String) (new_id : String) :
    ServerDB × DBBinding :=
  let binding : DBBinding :=
    { id := new_id, action_id := action_id, source_node_id := source_node_id,
      target_node_id := target_node_id, target_event_id := target_event_id }
  ({ σ with bindings := σ.bindings ++ [binding] }, binding)

/-- The binding-shape rule of the specification applied to a persisted
binding row: resolve the bound action and check the two legal shapes. -/
def serverBindingLegal (σ : ServerDB) (b : DBBinding) : Bool :=
  match σ.actions.find? (fun a => a.id = b.action_id) with
  | none => false
  | some a =>
    if a.is_key_action then b.target_node_id.isSome && b.target_event_id.isNone
    else b.target_event_id.isSome && b.target_node_id.isNone

/-- All nodes of a project, in table order
(`query(NarrativeNode).filter(project_id == ...)`). -/
def projNodes (pid : String) (σ : ServerDB) : List DBNode :=
  σ.nodes.filter (fun n => n.project_id = pid)

/-- All events of a node (`query(NarrativeEvent).filter(node_id == ...)`). -/
def nodeEvents (σ : ServerDB) (nid : String) : List DBEvent :=
  σ.events.filter (fun e => e.node_id = nid)

/-- All bindings whose source is a node
(`query(ActionBinding).filter(source_node_id == ...)`). -/
def nodeBindings (σ : ServerDB) (nid : String) : List DBBinding :=
  σ.bindings.filter (fun b => b.source_node_id = nid)

/-- `binding.action`: resolve an action id against the actions table. -/
def findAction (σ : ServerDB) (aid : String) : Option DBAction :=
  σ.actions.find? (fun a => a.id = aid)

/-- Python `s or d` on strings: `d` when `s` is falsy (empty), else `s`. -/
def pyOrDefault (s d : String) : String :=
  if s = "" then d else s

/-- Event serialization inside `_create_current_snapshot`
(`"event_type": event.event_type or "dialogue"`; the remaining `or`
defaults are identities on the non-optional columns). -/
def eventDocOf (e : DBEvent) : EventDoc :=
  { id := e.id, speaker := e.speaker, content := e.content,
    description := e.description, timestamp := e.timestamp,
    event_type := pyOrDefault e.event_type ("dialogue"), meta_data := e.meta_data }

/-- Binding serialization inside `_create_current_snapshot`: a binding
whose action does not resolve is skipped (`if not binding.action:
continue`). -/
def actionDocOf (σ : ServerDB) (b : DBBinding) : Option ActionDoc :=
  (findAction σ b.action_id).map (fun a =>
    { binding_id := b.id,
      action := { id := a.id, description := a.description,
                  is_key_action := a.is_key_action, meta_data := a.meta_data },
      target_node_id := b.target_node_id, target_event_id := b.target_event_id })

/-- Node serialization inside `_create_current_snapshot`
(`"node_type": node.node_type or "scene"`). -/
def nodeDocOf (σ : ServerDB) (n : DBNode) : NodeDoc :=
  { id := n.id, scene := n.scene, node_type := pyOrDefault n.node_type ("scene"),
    level := n.level,
    parent_node_id := n.parent_node_id, meta_data := n.meta_data,
    events := (nodeEvents σ n.id).map eventDocOf,
    actions := (nodeBindings σ n.id).filterMap (actionDocOf σ) }

/-- `StoryHistoryRepository._create_current_snapshot`: the empty dict
when the project does not exist, otherwise `project_info` plus the dict
of node documents in table order. -/
def create_current_snapshot (pid : String) (σ : ServerDB) : RawSnap :=
  match σ.projects.find? (fun p => p.id = pid) with
  | none => RawSnap.emptyDict
  | some p =>
    RawSnap.dict
      (some (RawNodes.dict ((projNodes pid σ).map (fun n => (n.id, nodeDocOf σ n)))))
      (some { id := p.id, title := p.title, description := p.description,
              start_node_id := p.start_node_id })

/-- The validity checks run on a stored document by `restore_snapshot`
and `_apply_snapshot_safe`: the document must be a truthy dict and its
`nodes` entry, when present, must be a dict. -/
def checkSnapshotData : RawSnap → Bool
  | RawSnap.notDict => false
  | RawSnap.emptyDict => false
  | RawSnap.dict nodesField _ =>
    match nodesField with
    | some RawNodes.notDict => false
    | _ => true

/-- `snapshot_data.get("nodes", {})` after validation. -/
def nodesDataOf : RawSnap → List (String × NodeDoc)
  | RawSnap.dict (some (RawNodes.dict l)) _ => l
  | _ => []

/-- `snapshot_data.get("project_info", {})`; `none` stands for the
absent entry (the `{}` default). -/
def projInfoOf : RawSnap → Option ProjInfoDoc
  | RawSnap.dict _ pi => pi
  | _ => none

/-- The action ids collected from the outgoing bindings of the current
nodes (step 1 of `_safe_delete_project_data`); only truthy ids are kept. -/
def collectBindingActionIds (σ : ServerDB) (currentNodes : List DBNode) : List String :=
  currentNodes.flatMap (fun n =>
    (nodeBindings σ n.id).filterMap (fun b =>
      if b.action_id = "" then none else some b.action_id))

/-- The action ids of event-linked actions of the current nodes. -/
def collectEventActionIds (σ : ServerDB) (currentNodes : List DBNode) : List String :=
  currentNodes.flatMap (fun n =>
    (nodeEvents σ n.id).flatMap (fun e =>
      (σ.actions.filter (fun a => a.event_id = some e.id)).map (fun a => a.id)))

/-- `StoryHistoryRepository._safe_delete_project_data`: clear the
project start pointer, collect every reachable action id, then delete
bindings, the collected actions, events and finally the nodes of the
project (the batched deletes are state-equivalent to one filter per
table; `list(set(...))` is modelled by `dedup`, downstream only
membership in it is used). -/
def safe_delete_project_data (pid : String) (currentNodes : List DBNode)
    (σ : ServerDB) : ServerDB :=
  let σ₀ := { σ with projects := σ.projects.map (fun (p : Project) =>
    if p.id = pid ∧ pyTruthy p.start_node_id then { p with start_node_id := none } else p) }
  let uniqueActionIds :=
    (collectBindingActionIds σ currentNodes ++ collectEventActionIds σ currentNodes).dedup
  let nodeIds := currentNodes.map (fun n => n.id)
  { σ₀ with
    bindings := σ₀.bindings.filter (fun b => b.source_node_id ∉ nodeIds),
    actions := σ₀.actions.filter (fun a => a.id ∉ uniqueActionIds),
    events := σ₀.events.filter (fun e => e.node_id ∉ nodeIds),
    nodes := σ₀.nodes.filter (fun n => n.project_id ≠ pid) }

/-- The node row recreated from a node document by
`_safe_create_node_and_events` (lengths clamped, level made
non-negative). -/
def newNodeRow (pid : String) (nd : NodeDoc) : DBNode :=
  { id := nd.id, project_id := pid, scene := pyTake 2000 nd.scene,
    node_type := pyTake 50 nd.node_type, level := max 0 nd.level,
    parent_node_id := nd.parent_node_id, meta_data := nd.meta_data }

/-- The event rows recreated from a node document; events with a falsy
id are skipped (`if ... event_data.get("id")`). -/
def newEventRows (nd : NodeDoc) : List DBEvent :=
  nd.events.filterMap (fun ed =>
    if ed.id = "" then none
    else some
      { id := ed.id, node_id := nd.id, speaker := pyTake 200 ed.speaker,
        content := pyTake 5000 ed.content, description := pyTake 1000 ed.description,
        timestamp := max 0 ed.timestamp, event_type := pyTake 50 ed.event_type,
        meta_data := ed.meta_data })

/-- `StoryHistoryRepository._safe_create_node_and_events`. -/
def safe_create_node_and_events (pid : String) (nd : NodeDoc) (σ : ServerDB) : ServerDB :=
  { σ with nodes := σ.nodes ++ [newNodeRow pid nd],
           events := σ.events ++ newEventRows nd }

/-- The action row recreated from a binding entry: always standalone
(`event_id = None`). -/
def newActionRow (ad : ActionDoc) : DBAction :=
  { id := ad.action.id, event_id := none,
    description := pyTake 500 ad.action.description,
    is_key_action := ad.action.is_key_action, meta_data := ad.action.meta_data }

/-- The binding row recreated from a binding entry of node document `nd`. -/
def newBindingRow (nd : NodeDoc) (ad : ActionDoc) : DBBinding :=
  { id := ad.binding_id, action_id := ad.action.id, source_node_id := nd.id,
    target_node_id := ad.target_node_id, target_event_id := ad.target_event_id }

/-- `StoryHistoryRepository._safe_create_actions_and_bindings`: entries
with a falsy embedded action id are skipped; the binding row is added
only when `binding_id` is truthy. -/
def safe_create_actions_and_bindings (nd : NodeDoc) (σ : ServerDB) : ServerDB :=
  nd.actions.foldl (fun σ ad =>
    if ad.action.id = "" then σ
    else
      let σ₁ := { σ with actions := σ.actions ++ [newActionRow ad] }
      if ad.binding_id = "" then σ₁
      else { σ₁ with bindings := σ₁.bindings ++ [newBindingRow nd ad] }) σ

/-- The action rows `_safe_create_actions_and_bindings` adds for one
node document, in order. -/
def actionRowsOf (nd : NodeDoc) : List DBAction :=
  nd.actions.filterMap (fun ad =>
    if ad.action.id = "" then none else some (newActionRow ad))

/-- The binding rows `_safe_create_actions_and_bindings` adds for one
node document, in order. -/
def bindingRowsOf (nd : NodeDoc) : List DBBinding :=
  nd.actions.filterMap (fun ad =>
    if ad.action.id = "" then none
    else if ad.binding_id = "" then none
    else some (newBindingRow nd ad))

/-- The start id `_safe_update_project_info` writes: the recorded one
when truthy and resolving to a node of the project, `None` otherwise. -/
def restoredStartId (pid : String) (info : Option ProjInfoDoc)
    (nodes : List DBNode) : Option String :=
  match info with
  | none => none
  | some i =>
    match i.start_node_id with
    | none => none
    | some s =>
      if s = "" then none
      else if nodes.any (fun nd => nd.id = s && nd.project_id = pid) then some s
      else none

/-- `StoryHistoryRepository._safe_update_project_info` (the serializer
always emits a dict `project_info`, so the non-dict skip branch is not
represented; its outcome on the restore path is the same `None` start). -/
def safe_update_project_info (pid : String) (raw : RawSnap) (σ : ServerDB) : ServerDB :=
  { σ with projects := σ.projects.map (fun p =>
    if p.id = pid then { p with start_node_id := restoredStartId pid (projInfoOf raw) σ.nodes }
    else p) }

/-- `StoryHistoryRepository._safe_recreate_from_snapshot`: first pass
creates nodes and events, second pass actions and bindings, then the
project info is updated against the recreated nodes. -/
def safe_recreate_from_snapshot (pid : String) (raw : RawSnap) (σ : ServerDB) : ServerDB :=
  let nodesData := nodesDataOf raw
  let σ₁ := nodesData.foldl (fun σ p => safe_create_node_and_events pid p.2 σ) σ
  let σ₂ := nodesData.foldl (fun σ p => safe_create_actions_and_bindings p.2 σ) σ₁
  safe_update_project_info pid raw σ₂

/-- `StoryHistoryRepository._apply_snapshot_safe`: validate the
document, collect the current nodes, tear down, recreate. -/
def apply_snapshot_safe (pid : String) (raw : RawSnap) (σ : ServerDB) :
    Except String ServerDB :=
  if checkSnapshotData raw = false then Except.error ("Invalid snapshot data")
  else
    let currentNodes := σ.nodes.filter (fun n => n.project_id = pid)
    let σ₁ := safe_delete_project_data pid currentNodes σ
    Except.ok (safe_recreate_from_snapshot pid raw σ₁)

/-- Insertion step of sorting by `created_at` descending. -/
def insertByCreatedDesc (e : HistEntry) : List HistEntry → List HistEntry
  | [] => [e]
  | x :: xs =>
    if e.created_at ≤ x.created_at then x :: insertByCreatedDesc e xs
    else e :: x :: xs

/-- `order_by(StoryEditHistory.created_at.desc())`. -/
def sortByCreatedDesc : List HistEntry → List HistEntry
  | [] => []
  | x :: xs => insertByCreatedDesc x (sortByCreatedDesc xs)

/-- `StoryHistoryRepository.get_project_history`: the project history,
most recent first, limited. -/
def get_project_history (pid : String) (limit : Nat) (σ : ServerDB) : List HistEntry :=
  (sortByCreatedDesc (σ.history.filter (fun h => h.project_id = pid))).take limit

/-- `StoryHistoryRepository._cleanup_old_history`: delete every entry of
the project ranked fifth or later by creation time descending
(`offset(4)`). -/
def cleanup_old_history (pid : String) (σ : ServerDB) : ServerDB :=
  let old := (sortByCreatedDesc (σ.history.filter (fun h => h.project_id = pid))).drop 4
  { σ with history := σ.history.filter (fun h => h.id ∉ old.map (fun o => o.id)) }

/-- `StoryHistoryRepository.save_snapshot`: clean up the old history of
the project first, then insert the new entry stamped with the clock. -/
def save_snapshot (pid uid : String) (snapshot_data : RawSnap)
    (operation_type operation_description : String) (affected_node_id : Option String)
    (σ : ServerDB) : ServerDB :=
  let σ₁ := cleanup_old_history pid σ
  let entry : HistEntry :=
    { id := σ₁.clock, project_id := pid, user_id := uid, snapshot_data := snapshot_data,
      operation_type := operation_type, operation_description := operation_description,
      affected_node_id := affected_node_id, created_at := σ₁.clock }
  { σ₁ with history := σ₁.history ++ [entry], clock := σ₁.clock + 1 }

/-- The history entry a `save_snapshot` call on `σ` inserts. -/
def savedEntry (pid uid : String) (snapshot_data : RawSnap)
    (operation_type operation_description : String) (affected_node_id : Option String)
    (σ : ServerDB) : HistEntry :=
  { id := σ.clock, project_id := pid, user_id := uid, snapshot_data := snapshot_data,
    operation_type := operation_type, operation_description := operation_description,
    affected_node_id := affected_node_id, created_at := σ.clock }

/-- `StoryHistoryRepository.restore_snapshot` with the apply phase
abstracted: look up the snapshot, validate its document, serialize the
current state, run the apply phase inside the savepoint, and on success
record the pre-rollback state as a new ledger entry.  Any error raised
by the apply phase triggers `savepoint.rollback()` followed by
`db.rollback()`; nothing was committed before that point, so the
store the call started from is what remains. -/
def restore_snapshot_gen (applyPhase : String → RawSnap → ServerDB → Except String ServerDB)
    (pid : String) (sid : Nat) (uid : String) (σ : ServerDB) : Bool × ServerDB :=
  match σ.history.find? (fun h => h.id = sid ∧ h.project_id = pid) with
  | none => (false, σ)
  | some snap =>
    if checkSnapshotData snap.snapshot_data = false then (false, σ)
    else
      let current := create_current_snapshot pid σ
      match applyPhase pid snap.snapshot_data σ with
      | Except.error _ => (false, σ)
      | Except.ok σ₁ =>
        (true, save_snapshot pid uid current ("rollback_point")
          ("State before rollback to " ++ snap.operation_description) none σ₁)

/-- `StoryHistoryRepository.restore_snapshot` proper: the apply phase is
`_apply_snapshot_safe`. -/
def restore_snapshot (pid : String) (sid : Nat) (uid : String) (σ : ServerDB) :
    Bool × ServerDB :=
  restore_snapshot_gen apply_snapshot_safe pid sid uid σ

end Server

namespace Client

/-- The two legal binding shapes, as the specification states them. -/
def bindingShape (b : ActionBinding) : Prop :=
  (b.action.is_key_action = true ∧ b.target_node.isSome = true ∧ b.target_event = none) ∨
  (b.action.is_key_action = false ∧ b.target_event.isSome = true ∧ b.target_node = none)

/-- The legal argument combinations of `bind_action`. -/
def legalCombination (a : Action) (node_to : Option Node) (event : Option Event) : Prop :=
  (a.is_key_action = true ∧ node_to ≠ none ∧ event = none) ∨
  (a.is_key_action = false ∧ event ≠ none ∧ node_to = none)

/-- The start pointer, when set, is a key of the nodes dict. -/
def StartWF (g : NarrativeGraph) : Prop :=
  ∀ s, g.start_node_id = some s → s ∈ g.keys

/-- Fixture: a key action. -/
def keyAct : Action :=
  { id := "a1", description := "go north", is_key_action := true, metadata := [] }

/-- Fixture: a regular action. -/
def regAct : Action :=
  { id := "a2", description := "look around", is_key_action := false, metadata := [] }

/-- Fixture: a flavor event. -/
def evE : Event :=
  { id := "e1", speaker := "", content := "wind rustles", timestamp := 0,
    event_type := "dialogue", metadata := [], description := "", actions := [] }

/-- Fixture: the start node, with a key binding to the second node. -/
def nodeA : Node :=
  { id := "n1", scene := "start",
    events := [evE],
    outgoing_actions := [{ action := keyAct, target_node := some "n2", target_event := none }],
    metadata := [] }

/-- Fixture: the second node. -/
def nodeB : Node :=
  { id := "n2", scene := "next", events := [], outgoing_actions := [], metadata := [] }

/-- Fixture: a two-node graph whose start node is `n1`. -/
def exGraph : NarrativeGraph :=
  { title := "example", nodes := [("n1", nodeA), ("n2", nodeB)], start_node_id := some "n1" }

/-- Fixture: a one-node graph whose start pointer names a missing node. -/
def exGraphBadStart : NarrativeGraph :=
  { title := "example", nodes := [("n2", nodeB)], start_node_id := some "zz" }

end Client

namespace Server

/-- The ledger invariant maintained by the store: creation times are
strictly increasing along the table, bounded by the clock, and primary
keys coincide with creation times. -/
def LedgerWF (σ : ServerDB) : Prop :=
  σ.history.Pairwise (fun a b => a.created_at < b.created_at) ∧
  (∀ h ∈ σ.history, h.created_at < σ.clock) ∧
  (∀ h ∈ σ.history, h.id = h.created_at)

/-- The quiescent, well-formed project states the snapshot round trip
preserves: the project exists, ids are unique, every serialized field is
within the length and sign clamps of the recreation code, the type
fields are truthy (the serializer rewrites a falsy `node_type` or
`event_type` to its default, so an empty one cannot round-trip), every binding
of the project resolves to a standalone action bound only once, the
start pointer names a node of the project, and the project has no
event-linked actions (event-linked actions are torn down during
rollback but never serialized, so they cannot round-trip). -/
def RoundTripWF (pid : String) (σ : ServerDB) : Prop :=
  (σ.projects.find? (fun p => p.id = pid)).isSome = true ∧
  (σ.projects.map (fun p => p.id)).Nodup ∧
  (σ.nodes.map (fun n => n.id)).Nodup ∧
  (σ.actions.map (fun a => a.id)).Nodup ∧
  ((projNodes pid σ).flatMap (fun n => (nodeBindings σ n.id).map (fun b => b.action_id))).Nodup ∧
  (∀ n ∈ projNodes pid σ, n.scene.length ≤ 2000 ∧ n.node_type ≠ "" ∧
     n.node_type.length ≤ 50 ∧ 0 ≤ n.level) ∧
  (∀ n ∈ projNodes pid σ, ∀ e ∈ nodeEvents σ n.id,
     e.id ≠ "" ∧ e.speaker.length ≤ 200 ∧ e.content.length ≤ 5000 ∧
     e.description.length ≤ 1000 ∧ 0 ≤ e.timestamp ∧
     e.event_type ≠ "" ∧ e.event_type.length ≤ 50) ∧
  (∀ n ∈ projNodes pid σ, ∀ b ∈ nodeBindings σ n.id,
     b.id ≠ "" ∧ b.action_id ≠ "" ∧
     ∃ a ∈ σ.actions, findAction σ b.action_id = some a ∧
       a.event_id = none ∧ a.description.length ≤ 500) ∧
  (∀ p ∈ σ.projects, p.id = pid → ∀ s, p.start_node_id = some s →
     s ≠ "" ∧ ∃ n ∈ σ.nodes, n.id = s ∧ n.project_id = pid) ∧
  (∀ a ∈ σ.actions, ∀ eid, a.event_id = some eid →
     ∀ n ∈ projNodes pid σ, ∀ e ∈ nodeEvents σ n.id, e.id ≠ eid)

/-- The start id recorded in a snapshot document. -/
def recordedStart (raw : RawSnap) : Option String :=
  (projInfoOf raw).bind (fun i => i.start_node_id)

/-- Fixture: a project row. -/
def projP1 : Project :=
  { id := "p1", title := "story", description := "", start_node_id := some "n1" }

/-- Fixture: a node row of project `p1`. -/
def dbNode1 : DBNode :=
  { id := "n1", project_id := "p1", scene := "start", node_type := "scene",
    level := 0, parent_node_id := none, meta_data := "" }

/-- Fixture: an event row on node `n1`. -/
def dbEvent1 : DBEvent :=
  { id := "e1", node_id := "n1", speaker := "", content := "wind", description := "",
    timestamp := 0, event_type := "dialogue", meta_data := "" }

/-- Fixture: a standalone key action row. -/
def dbAction1 : DBAction :=
  { id := "a1", event_id := none, description := "go north", is_key_action := true,
    meta_data := "" }

/-- Fixture: a binding row realizing `a1` from `n1` back to `n1`. -/
def dbBinding1 : DBBinding :=
  { id := "b1", action_id := "a1", source_node_id := "n1",
    target_node_id := some "n1", target_event_id := none }

/-- Fixture: a history entry holding a valid (dict-shaped) document. -/
def histValid : HistEntry :=
  { id := 0, project_id := "p1", user_id := "u1",
    snapshot_data := RawSnap.dict (some (RawNodes.dict [])) (some
      { id := "p1", title := "story", description := "", start_node_id := none }),
    operation_type := "edit", operation_description := "first edit",
    affected_node_id := none, created_at := 0 }

/-- Fixture: a history entry whose stored document is the empty dict. -/
def histBad : HistEntry :=
  { id := 1, project_id := "p1", user_id := "u1", snapshot_data := RawSnap.emptyDict,
    operation_type := "edit", operation_description := "second edit",
    affected_node_id := none, created_at := 1 }

/-- Fixture: a small well-formed store for project `p1`. -/
def exDB : ServerDB :=
  { projects := [projP1], nodes := [dbNode1], events := [dbEvent1],
    actions := [dbAction1], bindings := [dbBinding1],
    history := [histValid, histBad], clock := 2 }

/-- Fixture: a store holding a regular action, used to exercise
`create_action_binding` with an illegal shape. -/
def exDBRegular : ServerDB :=
  { projects := [{ id := "p1", title := "story", description := "", start_node_id := none }],
    nodes := [dbNode1], events := [], bindings := [], history := [], clock := 0,
    actions := [{ id := "a2", event_id := none, description := "look around",
                  is_key_action := false, meta_data := "" }] }

/-- Fixture: a store whose only action is event-linked (an action owned
by event `e1` rather than realized by a binding). -/
def exDBEventAction : ServerDB :=
  { projects := [{ id := "p1", title := "story", description := "", start_node_id := none }],
    nodes := [dbNode1], events := [dbEvent1], bindings := [], history := [], clock := 0,
    actions := [{ id := "ae", event_id := some "e1", description := "reply",
                  is_key_action := false, meta_data := "" }] }

/-- The action count of the store produced by applying the snapshot of
`exDBEventAction` back onto it (`none` when the apply phase fails). -/
def eventActionRoundTripCount : Option Nat :=
  match apply_snapshot_safe ("p1") (create_current_snapshot ("p1") exDBEventAction)
      exDBEventAction with
  | Except.ok σr => some σr.actions.length
  | Except.error _ => none

instance instDecidableLedgerWF (σ : ServerDB) : Decidable (LedgerWF σ) := by
  unfold LedgerWF
  infer_instance

instance instDecidableRoundTripWF (pid : String) (σ : ServerDB) :
    Decidable (RoundTripWF pid σ) := by
  unfold RoundTripWF
  infer_instance

end Server

namespace Client

instance instDecidableClosed (g : NarrativeGraph) : Decidable (Closed g) := by
  unfold Closed
  infer_instance

instance instDecidableBindingShape (b : ActionBinding) : Decidable (bindingShape b) := by
  unfold bindingShape
  infer_instance

instance instDecidableLegalCombination (a : Action) (node_to : Option Node)
    (event : Option Event) : Decidable (legalCombination a node_to event) := by
  unfold legalCombination
  infer_instance

end Client

namespace Client

/-- C8: for every Event e and every Action a with is_key_action = true,
e.add_action a leaves the actions list of e unchanged and raises no
error; only actions with is_key_action = false are appended. -/
theorem add_action_ignores_key_actions (e : Event) (a : Action) :
    (a.is_key_action = true → e.add_action a = e) ∧
    (a.is_key_action = false → e.add_action a = { e with actions := e.actions ++ [a] }) := by
  constructor <;> intro h <;> simp [Event.add_action, h]

theorem add_action_ignores_key_actions_witness :
    (evE.add_action keyAct = evE) ∧
    (evE.add_action regAct = { evE with actions := evE.actions ++ [regAct] }) :=
  ⟨(add_action_ignores_key_actions evE keyAct).1 rfl,
   (add_action_ignores_key_actions evE regAct).2 rfl⟩

/-- C10: get_reachable_nodes is total at the public interface: when the
effective start id (the argument, or the start pointer of the graph
when the argument is omitted) is absent or is not the id of any node,
it returns the empty set instead of raising. -/
theorem get_reachable_nodes_total_on_missing_start (g : NarrativeGraph) (arg : Option String)
    (h : pyOrStr arg g.start_node_id = none ∨
         ∃ s, pyOrStr arg g.start_node_id = some s ∧ g.get_node s = none) :
    g.get_reachable_nodes arg = some [] := by
  unfold NarrativeGraph.get_reachable_nodes
  rcases h with h | ⟨s, hs, hn⟩
  · rw [h]
  · rw [hs]
    simp [hn]

theorem get_reachable_nodes_total_on_missing_start_witness :
    exGraphBadStart.get_reachable_nodes none = some [] :=
  get_reachable_nodes_total_on_missing_start exGraphBadStart none
    (Or.inr ⟨"zz", by decide, by decide⟩)

end Client

namespace Server

/-- C2: whatever error any step of the teardown or reconstruction phase
raises, the rollback aborts: it returns failure and the store — every
node, event, action, binding, project start pointer and the history
ledger — is exactly the state the call started from. -/
theorem restore_snapshot_aborts_on_failure
    (applyPhase : String → RawSnap → ServerDB → Except String ServerDB)
    (pid : String) (sid : Nat) (uid : String) (σ : ServerDB) (snap : HistEntry) (msg : String)
    (hfind : σ.history.find? (fun h => h.id = sid ∧ h.project_id = pid) = some snap)
    (hfail : applyPhase pid snap.snapshot_data σ = Except.error msg) :
    restore_snapshot_gen applyPhase pid sid uid σ = (false, σ) := by
  unfold restore_snapshot_gen
  rw [hfind]
  by_cases hck : checkSnapshotData snap.snapshot_data = false
  · simp [hck]
  · simp [hck, hfail]

theorem restore_snapshot_aborts_on_failure_witness :
    restore_snapshot_gen (fun _ _ _ => Except.error ("TransactionFailure"))
      ("p1") 0 ("u1") exDB = (false, exDB) :=
  restore_snapshot_aborts_on_failure _ ("p1") 0 ("u1") exDB histValid
    ("TransactionFailure") (by decide) rfl

/-- C9: when the stored snapshot document is empty, not a dict, or its
nodes field is not a dict, restore_snapshot fails before deleting or
creating anything: it returns false and the whole store is unchanged. -/
theorem restore_snapshot_rejects_invalid_document (pid : String) (sid : Nat) (uid : String)
    (σ : ServerDB) (snap : HistEntry)
    (hfind : σ.history.find? (fun h => h.id = sid ∧ h.project_id = pid) = some snap)
    (hbad : checkSnapshotData snap.snapshot_data = false) :
    restore_snapshot pid sid uid σ = (false, σ) := by
  unfold restore_snapshot restore_snapshot_gen
  rw [hfind]
  simp [hbad]

theorem restore_snapshot_rejects_invalid_document_witness :
    restore_snapshot ("p1") 1 ("u1") exDB = (false, exDB) :=
  restore_snapshot_rejects_invalid_document ("p1") 1 ("u1") exDB histBad
    (by decide) (by decide)

/-- C1 counterexample: ActionRepository.create_action_binding persists
a binding for a non-key action with a target node and no target event —
an illegal shape — with no error at bind time. -/
theorem create_action_binding_persists_invalid :
    ((create_action_binding exDBRegular ("a2") ("n1") (some "n1") none ("b9")).2 ∈
       (create_action_binding exDBRegular ("a2") ("n1") (some "n1") none ("b9")).1.bindings) ∧
    serverBindingLegal
      (create_action_binding exDBRegular ("a2") ("n1") (some "n1") none ("b9")).1
      (create_action_binding exDBRegular ("a2") ("n1") (some "n1") none ("b9")).2 = false := by
  constructor
  · decide
  · decide

end Server

namespace Client

/-- C1 amended: ActionBinding.validate accepts exactly the two legal
shapes, and bind_action fails with an error on every other argument
combination — persisting nothing — while appending a validated binding
on the legal ones.  (ActionRepository.create_action_binding, by
contrast, persists bindings without validation; see the
counterexample.) -/
theorem binding_shape_rule (b : ActionBinding) (n : Node) (a : Action)
    (node_to : Option Node) (event : Option Event) :
    (b.validate = true ↔ bindingShape b) ∧
    ((∃ msg, bind_action n a node_to event = Except.error msg) ↔
      ¬ legalCombination a node_to event) ∧
    (legalCombination a node_to event →
      bind_action n a node_to event =
        Except.ok ({ n with outgoing_actions := n.outgoing_actions ++
          [{ action := a, target_node := node_to.map (fun x => x.id),
             target_event := event }] }, true)) := by
  refine ⟨?_, ?_, ?_⟩
  · unfold ActionBinding.validate bindingShape
    cases hk : b.action.is_key_action <;>
      cases hn : b.target_node <;>
        cases he : b.target_event <;> simp [hk, hn, he]
  · unfold bind_action legalCombination
    cases hk : a.is_key_action <;>
      cases hn : node_to <;>
        cases he : event <;>
          simp [hk, hn, he, Node.add_action_binding]
  · intro hleg
    unfold bind_action
    rcases hleg with ⟨hk, hn, he⟩ | ⟨hk, he, hn⟩
    · rcases Option.ne_none_iff_exists.mp hn with ⟨nt, hnt⟩
      subst he
      simp [hk, ← hnt, Node.add_action_binding, ActionBinding.validate]
    · rcases Option.ne_none_iff_exists.mp he with ⟨ev, hev⟩
      subst hn
      simp [hk, ← hev, Node.add_action_binding, ActionBinding.validate]

theorem binding_shape_rule_witness :
    (ActionBinding.validate { action := keyAct, target_node := some "n2", target_event := none } = true ↔
      bindingShape { action := keyAct, target_node := some "n2", target_event := none }) ∧
    ((∃ msg, bind_action nodeB keyAct (some nodeB) none = Except.error msg) ↔
      ¬ legalCombination keyAct (some nodeB) none) ∧
    bind_action nodeB keyAct (some nodeB) none =
      Except.ok ({ nodeB with outgoing_actions := nodeB.outgoing_actions ++
        [{ action := keyAct, target_node := (some nodeB).map (fun x => x.id),
           target_event := none }] }, true) :=
  ⟨(binding_shape_rule { action := keyAct, target_node := some "n2", target_event := none }
      nodeB keyAct (some nodeB) none).1,
   (binding_shape_rule { action := keyAct, target_node := some "n2", target_event := none }
      nodeB keyAct (some nodeB) none).2.1,
   (binding_shape_rule { action := keyAct, target_node := some "n2", target_event := none }
      nodeB keyAct (some nodeB) none).2.2 (by decide)⟩

end Client

namespace Client

/-- Filtering an association list on its keys commutes with taking the
key list. -/
theorem map_fst_filter_ne (nid : String) (l : List (String × Node)) :
    (l.filter (fun p => p.1 ≠ nid)).map Prod.fst =
      (l.map Prod.fst).filter (fun k => k ≠ nid) := by
  induction l with
  | nil => rfl
  | cons p l ih =>
    by_cases hp : p.1 = nid
    · simpa [List.filter_cons, hp] using ih
    · simpa [List.filter_cons, hp] using ih

/-- C4 counterexample: removing the start node of a two-node graph
returns true and moves the start pointer to the other node — it is not
cleared to null. -/
theorem remove_node_start_not_cleared :
    (exGraph.remove_node ("n1")).2 = true ∧
    (exGraph.remove_node ("n1")).1.start_node_id = some ("n2") := by
  constructor
  · decide
  · decide

/-- C4 amended: remove_node returns false iff the node did not exist;
on success the node (with its events and outgoing bindings) is gone and
no remaining binding targets it; when the start pointer pointed at the
removed node it is reassigned to the first remaining node id — null
only when no node remains — and it is never left dangling. -/
theorem remove_node_spec (g : NarrativeGraph) (nid : String) (hwf : StartWF g) :
    ((g.remove_node nid).2 = false ↔ g.get_node nid = none) ∧
    (g.get_node nid ≠ none →
      ((g.remove_node nid).1.get_node nid = none ∧
       (∀ pr ∈ (g.remove_node nid).1.nodes, ∀ b ∈ pr.2.outgoing_actions,
          b.target_node ≠ some nid) ∧
       (g.remove_node nid).1.start_node_id =
         (if g.start_node_id = some nid then (g.keys.filter (fun k => k ≠ nid)).head?
          else g.start_node_id) ∧
       (∀ s, (g.remove_node nid).1.start_node_id = some s →
          s ∈ (g.remove_node nid).1.keys))) := by
  by_cases hex : (g.get_node nid).isNone
  · have hnone : g.get_node nid = none := Option.isNone_iff_eq_none.mp hex
    constructor
    · simp [NarrativeGraph.remove_node, hex, hnone]
    · intro hn
      exact absurd hnone hn
  · have hsome : g.get_node nid ≠ none := by
      intro hc
      exact hex (Option.isNone_iff_eq_none.mpr hc)
    have hrw : g.remove_node nid =
        ({ g with
            nodes := (g.nodes.map (fun p =>
              (p.1, { p.2 with outgoing_actions := p.2.outgoing_actions.filter (fun b =>
                b.target_node = none ∨ b.target_node ≠ some nid) }))).filter
                  (fun p => p.1 ≠ nid),
            start_node_id :=
              if g.start_node_id = some nid then
                ((g.keys.filter (fun k => k ≠ nid)).head?)
              else g.start_node_id }, true) := by
      unfold NarrativeGraph.remove_node
      rw [if_neg hex]
    have hnodes : (g.remove_node nid).1.nodes =
        (g.nodes.map (fun p =>
          (p.1, { p.2 with outgoing_actions := p.2.outgoing_actions.filter (fun b =>
            b.target_node = none ∨ b.target_node ≠ some nid) }))).filter
              (fun p => p.1 ≠ nid) := by
      rw [hrw]
    have hstart : (g.remove_node nid).1.start_node_id =
        (if g.start_node_id = some nid then (g.keys.filter (fun k => k ≠ nid)).head?
         else g.start_node_id) := by
      rw [hrw]
    constructor
    · rw [hrw]
      simp [hsome]
    · intro _
      refine ⟨?_, ?_, hstart, ?_⟩
      · unfold NarrativeGraph.get_node
        rw [hnodes]
        rw [Option.map_eq_none', List.find?_eq_none]
        intro p hp
        have := List.of_mem_filter hp
        simpa using this
      · rw [hnodes]
        intro pr hpr b hb
        have hprm := List.mem_of_mem_filter hpr
        rcases List.mem_map.mp hprm with ⟨q, _, hq⟩
        have hb' : b ∈ q.2.outgoing_actions.filter (fun b =>
            b.target_node = none ∨ b.target_node ≠ some nid) := by
          rw [← hq] at hb
          exact hb
        have hprop := List.of_mem_filter hb'
        simp only [decide_eq_true_eq] at hprop
        rcases hprop with h1 | h1
        · rw [h1]
          intro hc
          cases hc
        · exact h1
      · intro s hs
        rw [hstart] at hs
        have hkeys : (g.remove_node nid).1.keys = g.keys.filter (fun k => k ≠ nid) := by
          unfold NarrativeGraph.keys
          rw [hnodes, map_fst_filter_ne nid]
          congr 1
          rw [List.map_map]
          rfl
        rw [hkeys]
        by_cases hst : g.start_node_id = some nid
        · rw [if_pos hst] at hs
          cases hl : g.keys.filter (fun k => k ≠ nid) with
          | nil =>
            rw [hl] at hs
            cases hs
          | cons x xs =>
            rw [hl] at hs
            simp only [List.head?_cons, Option.some.injEq] at hs
            subst hs
            exact List.mem_cons_self x xs
        · rw [if_neg hst] at hs
          have hmem := hwf s hs
          have hne : s ≠ nid := by
            intro hc
            rw [hc] at hs
            exact hst hs
          exact List.mem_filter.mpr ⟨hmem, by simpa using hne⟩

theorem remove_node_spec_witness :
    (((exGraph.remove_node ("n1")).2 = false ↔ exGraph.get_node ("n1") = none)) ∧
    ((exGraph.remove_node ("n1")).1.get_node ("n1") = none ∧
     (∀ pr ∈ (exGraph.remove_node ("n1")).1.nodes, ∀ b ∈ pr.2.outgoing_actions,
        b.target_node ≠ some ("n1")) ∧
     (exGraph.remove_node ("n1")).1.start_node_id =
       (if exGraph.start_node_id = some ("n1") then
          (exGraph.keys.filter (fun k => k ≠ "n1")).head?
        else exGraph.start_node_id) ∧
     (∀ s, (exGraph.remove_node ("n1")).1.start_node_id = some s →
        s ∈ (exGraph.remove_node ("n1")).1.keys)) :=
  have hwf : StartWF exGraph := by
    intro s hs
    have : some "n1" = some s := hs
    cases this
    decide
  ⟨(remove_node_spec exGraph ("n1") hwf).1,
   (remove_node_spec exGraph ("n1") hwf).2 (by decide)⟩

end Client

namespace Server

/-- C7: after reconstruction, the project start pointer is set to the
snapshot-recorded start id only when that id names one of the (just
recreated) nodes of the project in the store the update runs against;
otherwise it is left null — a dangling start reference is never
written. -/
theorem safe_update_project_info_guard (pid : String) (raw : RawSnap) (σ : ServerDB)
    (p : Project) (hp : p ∈ σ.projects) (hpid : p.id = pid) :
    ({ p with start_node_id := restoredStartId pid (projInfoOf raw) σ.nodes } ∈
       (safe_update_project_info pid raw σ).projects) ∧
    (∀ s, restoredStartId pid (projInfoOf raw) σ.nodes = some s →
       recordedStart raw = some s ∧ ∃ nd ∈ σ.nodes, nd.id = s ∧ nd.project_id = pid) ∧
    (∀ s, recordedStart raw = some s → s ≠ "" →
       (∃ nd ∈ σ.nodes, nd.id = s ∧ nd.project_id = pid) →
       restoredStartId pid (projInfoOf raw) σ.nodes = some s) ∧
    (∀ s, recordedStart raw = some s →
       (¬ ∃ nd ∈ σ.nodes, nd.id = s ∧ nd.project_id = pid) →
       restoredStartId pid (projInfoOf raw) σ.nodes = none) := by
  refine ⟨?_, ?_, ?_, ?_⟩
  · unfold safe_update_project_info
    simp only []
    refine List.mem_map.mpr ⟨p, hp, ?_⟩
    rw [if_pos hpid]
  · intro s hs
    unfold recordedStart
    cases hinfo : projInfoOf raw with
    | none => simp [restoredStartId, hinfo] at hs
    | some i =>
      cases hsi : i.start_node_id with
      | none => simp [restoredStartId, hinfo, hsi] at hs
      | some s0 =>
        by_cases hz : s0 = ""
        · simp [restoredStartId, hinfo, hsi, hz] at hs
        · by_cases hany : σ.nodes.any (fun nd => nd.id = s0 && nd.project_id = pid) = true
          · have hs0 : s0 = s := by
              simp [restoredStartId, hinfo, hsi, hz, hany] at hs
              exact hs
            subst hs0
            refine ⟨by simp [hinfo, hsi], ?_⟩
            rcases List.any_eq_true.mp hany with ⟨nd, hnd, hcond⟩
            rcases Bool.and_eq_true_iff.mp hcond with ⟨h1, h2⟩
            exact ⟨nd, hnd, by simpa using h1, by simpa using h2⟩
          · simp [restoredStartId, hinfo, hsi, hz, hany] at hs
  · intro s hrec hne hex
    cases hinfo : projInfoOf raw with
    | none => simp [recordedStart, hinfo] at hrec
    | some i =>
      have hsi : i.start_node_id = some s := by
        simpa [recordedStart, hinfo] using hrec
      have hany : σ.nodes.any (fun nd => nd.id = s && nd.project_id = pid) = true := by
        rcases hex with ⟨nd, hnd, h1, h2⟩
        exact List.any_eq_true.mpr ⟨nd, hnd, by simp [h1, h2]⟩
      simp [restoredStartId, hinfo, hsi, hne, hany]
  · intro s hrec hnex
    cases hinfo : projInfoOf raw with
    | none => simp [recordedStart, hinfo] at hrec
    | some i =>
      have hsi : i.start_node_id = some s := by
        simpa [recordedStart, hinfo] using hrec
      have hany : ¬ (σ.nodes.any (fun nd => nd.id = s && nd.project_id = pid) = true) := by
        intro hany
        rcases List.any_eq_true.mp hany with ⟨nd, hnd, hcond⟩
        rcases Bool.and_eq_true_iff.mp hcond with ⟨h1, h2⟩
        exact hnex ⟨nd, hnd, by simpa using h1, by simpa using h2⟩
      by_cases hz : s = ""
      · simp [restoredStartId, hinfo, hsi, hz]
      · simp [restoredStartId, hinfo, hsi, hz, hany]

theorem safe_update_project_info_guard_witness :
    ({ projP1 with start_node_id :=
        restoredStartId ("p1") (projInfoOf (create_current_snapshot ("p1") exDB)) exDB.nodes } ∈
       (safe_update_project_info ("p1") (create_current_snapshot ("p1") exDB) exDB).projects) ∧
    (∀ s, restoredStartId ("p1") (projInfoOf (create_current_snapshot ("p1") exDB)) exDB.nodes =
        some s →
       recordedStart (create_current_snapshot ("p1") exDB) = some s ∧
       ∃ nd ∈ exDB.nodes, nd.id = s ∧ nd.project_id = "p1") ∧
    (∀ s, recordedStart (create_current_snapshot ("p1") exDB) = some s → s ≠ "" →
       (∃ nd ∈ exDB.nodes, nd.id = s ∧ nd.project_id = "p1") →
       restoredStartId ("p1") (projInfoOf (create_current_snapshot ("p1") exDB)) exDB.nodes =
         some s) ∧
    (∀ s, recordedStart (create_current_snapshot ("p1") exDB) = some s →
       (¬ ∃ nd ∈ exDB.nodes, nd.id = s ∧ nd.project_id = "p1") →
       restoredStartId ("p1") (projInfoOf (create_current_snapshot ("p1") exDB)) exDB.nodes =
         none) :=
  safe_update_project_info_guard ("p1") (create_current_snapshot ("p1") exDB) exDB projP1
    (by decide) rfl

end Server

namespace Server

/-- Inserting an entry no newer than any element of a list appends it. -/
theorem insertByCreatedDesc_append (e : HistEntry) :
    ∀ (l : List HistEntry), (∀ x ∈ l, e.created_at ≤ x.created_at) →
      insertByCreatedDesc e l = l ++ [e] := by
  intro l
  induction l with
  | nil => intro _; rfl
  | cons x xs ih =>
    intro h
    unfold insertByCreatedDesc
    rw [if_pos (h x (List.mem_cons_self x xs))]
    rw [ih (fun y hy => h y (List.mem_cons_of_mem x hy))]
    rfl

/-- Sorting by creation time descending reverses a list whose creation
times strictly increase. -/
theorem sortByCreatedDesc_eq_reverse (l : List HistEntry)
    (h : l.Pairwise (fun a b => a.created_at < b.created_at)) :
    sortByCreatedDesc l = l.reverse := by
  induction l with
  | nil => rfl
  | cons x xs ih =>
    rcases List.pairwise_cons.mp h with ⟨hx, hxs⟩
    unfold sortByCreatedDesc
    rw [ih hxs]
    rw [insertByCreatedDesc_append x xs.reverse (fun y hy =>
      Nat.le_of_lt (hx y (List.mem_reverse.mp hy)))]
    rw [List.reverse_cons]

/-- C5: on a ledger whose creation times strictly increase along the
table, save_snapshot first prunes the project history down to its 4
most recent entries and then inserts the new entry, so the project
history that get_project_history reports afterwards is exactly the new
entry followed by the previous 4 most recent, newest first, and its
length is capped at 5 (the 5 most recent saves survive any sequence of
saves, e.g. 7 of them leave exactly 5). -/
theorem save_snapshot_history_cap (pid uid : String) (data : RawSnap) (op desc : String)
    (aff : Option String) (σ : ServerDB) (hwf : LedgerWF σ) :
    get_project_history pid 5 (save_snapshot pid uid data op desc aff σ) =
      savedEntry pid uid data op desc aff σ :: (get_project_history pid 5 σ).take 4 ∧
    (get_project_history pid 5 (save_snapshot pid uid data op desc aff σ)).length =
      min ((σ.history.filter (fun h => h.project_id = pid)).length + 1) 5 := by
  obtain ⟨hP, hClock, hId⟩ := hwf
  set F := σ.history.filter (fun h => h.project_id = pid) with hFdef
  have hF : F.Pairwise (fun a b => a.created_at < b.created_at) :=
    hP.sublist (List.filter_sublist σ.history)
  set T := F.reverse.take 4 with hTdef
  set D := F.reverse.drop 4 with hDdef
  have hTD : F.reverse = T ++ D := (List.take_append_drop 4 F.reverse).symm
  have hsplit : F = D.reverse ++ T.reverse := by
    calc F = F.reverse.reverse := (List.reverse_reverse F).symm
    _ = (T ++ D).reverse := by rw [← hTD]
    _ = D.reverse ++ T.reverse := List.reverse_append T D
  have hFmem : ∀ x ∈ F, x ∈ σ.history := fun x hx => List.mem_of_mem_filter hx
  have hTmemF : ∀ x ∈ T, x ∈ F := fun x hx =>
    List.mem_reverse.mp (List.mem_of_mem_take hx)
  have hDmemF : ∀ x ∈ D, x ∈ F := fun x hx =>
    List.mem_reverse.mp (List.mem_of_mem_drop hx)
  have hcross : ∀ x ∈ T, ∀ y ∈ D, y.created_at < x.created_at := by
    have hrev : F.reverse.Pairwise (fun a b => b.created_at < a.created_at) := by
      rw [List.pairwise_reverse]
      exact hF
    rw [hTD] at hrev
    exact (List.pairwise_append.mp hrev).2.2
  have hsort : sortByCreatedDesc F = F.reverse := sortByCreatedDesc_eq_reverse F hF
  have hclean : (cleanup_old_history pid σ).history =
      σ.history.filter (fun h => h.id ∉ D.map (fun o => o.id)) := by
    unfold cleanup_old_history
    rw [← hFdef, hsort, ← hDdef]
  have hkeep : F.filter (fun h => h.id ∉ D.map (fun o => o.id)) = T.reverse := by
    conv_lhs => rw [hsplit]
    rw [List.filter_append]
    have hD0 : D.reverse.filter (fun h => h.id ∉ D.map (fun o => o.id)) = [] := by
      apply List.filter_eq_nil_iff.mpr
      intro x hx
      simp only [decide_eq_true_eq, Decidable.not_not]
      exact List.mem_map.mpr ⟨x, List.mem_reverse.mp hx, rfl⟩
    have hT0 : T.reverse.filter (fun h => h.id ∉ D.map (fun o => o.id)) = T.reverse := by
      apply List.filter_eq_self.mpr
      intro x hx
      simp only [decide_eq_true_eq]
      intro hmem
      rcases List.mem_map.mp hmem with ⟨y, hyD, hyid⟩
      have hxT : x ∈ T := List.mem_reverse.mp hx
      have hlt : y.created_at < x.created_at := hcross x hxT y hyD
      have hidx : x.id = x.created_at := hId x (hFmem x (hTmemF x hxT))
      have hidy : y.id = y.created_at := hId y (hFmem y (hDmemF y hyD))
      rw [hidx, hidy] at hyid
      omega
    rw [hD0, hT0, List.nil_append]
  have hfilter' : (save_snapshot pid uid data op desc aff σ).history.filter
      (fun h => h.project_id = pid) =
      T.reverse ++ [savedEntry pid uid data op desc aff σ] := by
    have hsave : (save_snapshot pid uid data op desc aff σ).history =
        (cleanup_old_history pid σ).history ++ [savedEntry pid uid data op desc aff σ] := rfl
    rw [hsave, List.filter_append, hclean]
    have h1 : (σ.history.filter (fun h => h.id ∉ D.map (fun o => o.id))).filter
        (fun h => h.project_id = pid) = F.filter (fun h => h.id ∉ D.map (fun o => o.id)) := by
      rw [hFdef]
      exact List.filter_comm _ _ _
    rw [h1, hkeep]
    congr 1
    simp [savedEntry]
  have hpair' : (T.reverse ++ [savedEntry pid uid data op desc aff σ]).Pairwise
      (fun a b => a.created_at < b.created_at) := by
    apply List.pairwise_append.mpr
    refine ⟨?_, List.pairwise_singleton _ _, ?_⟩
    · have hsub : List.Sublist T.reverse F := by
        have h2 := (List.take_sublist 4 F.reverse).reverse
        rwa [List.reverse_reverse] at h2
      exact hF.sublist hsub
    · intro a ha b hb
      have hb' : b = savedEntry pid uid data op desc aff σ := by simpa using hb
      subst hb'
      have haF : a ∈ F := hTmemF a (List.mem_reverse.mp ha)
      have := hClock a (hFmem a haF)
      simpa [savedEntry] using this
  have hsorted' : sortByCreatedDesc (T.reverse ++ [savedEntry pid uid data op desc aff σ]) =
      savedEntry pid uid data op desc aff σ :: T := by
    rw [sortByCreatedDesc_eq_reverse _ hpair', List.reverse_append, List.reverse_reverse]
    rfl
  have hTlen : T.length ≤ 4 := by
    rw [hTdef, List.length_take]
    omega
  have hLHS : get_project_history pid 5 (save_snapshot pid uid data op desc aff σ) =
      savedEntry pid uid data op desc aff σ :: T := by
    unfold get_project_history
    rw [hfilter', hsorted']
    rw [List.take_succ_cons, List.take_of_length_le hTlen]
  have hRHS : (get_project_history pid 5 σ).take 4 = T := by
    unfold get_project_history
    rw [← hFdef, hsort, List.take_take]
    rfl
  constructor
  · rw [hLHS, hRHS]
  · rw [hLHS]
    have hTlen' : T.length = min 4 F.length := by
      rw [hTdef, List.length_take, List.length_reverse]
    simp only [List.length_cons, hTlen']
    omega

theorem save_snapshot_history_cap_witness :
    (get_project_history ("p1") 5
        (save_snapshot ("p1") ("u1") RawSnap.emptyDict ("edit") ("third edit") none exDB) =
      savedEntry ("p1") ("u1") RawSnap.emptyDict ("edit") ("third edit") none exDB ::
        (get_project_history ("p1") 5 exDB).take 4) ∧
    (get_project_history ("p1") 5
        (save_snapshot ("p1") ("u1") RawSnap.emptyDict ("edit") ("third edit") none exDB)).length =
      min ((exDB.history.filter (fun h => h.project_id = "p1")).length + 1) 5 :=
  save_snapshot_history_cap ("p1") ("u1") RawSnap.emptyDict ("edit") ("third edit") none exDB
    (by decide)

end Server

namespace Client

/-- Unfolding: the traversal returns the visited set on an empty stack. -/
theorem dfsVisit_nil (g : NarrativeGraph) (v : List String) :
    g.dfsVisit [] v = some v := by
  rw [NarrativeGraph.dfsVisit]

/-- Unfolding: an already visited id is popped and skipped. -/
theorem dfsVisit_cons_visited (g : NarrativeGraph) (c : String) (rest v : List String)
    (h : c ∈ v) : g.dfsVisit (c :: rest) v = g.dfsVisit rest v := by
  rw [NarrativeGraph.dfsVisit]
  simp only [dif_pos h]

/-- Unfolding: an unvisited id that is not a key raises (KeyError). -/
theorem dfsVisit_cons_missing (g : NarrativeGraph) (c : String) (rest v : List String)
    (h : c ∉ v) (hf : g.nodes.find? (fun p => p.1 = c) = none) :
    g.dfsVisit (c :: rest) v = none := by
  rw [NarrativeGraph.dfsVisit]
  simp only [dif_neg h]
  split
  · rfl
  · rename_i pr' heq
    rw [hf] at heq
    cases heq

/-- Unfolding: an unvisited key is visited and its unvisited key-action
targets are pushed. -/
theorem dfsVisit_cons_found (g : NarrativeGraph) (c : String) (rest v : List String)
    (h : c ∉ v) (pr : String × Node) (hf : g.nodes.find? (fun p => p.1 = c) = some pr) :
    g.dfsVisit (c :: rest) v =
      g.dfsVisit (((keyTargets pr.2).filter (fun t => t ∉ c :: v)).reverse ++ rest) (c :: v) := by
  rw [NarrativeGraph.dfsVisit]
  simp only [dif_neg h]
  split
  · rename_i heq
    rw [hf] at heq
    cases heq
  · rename_i pr' heq
    rw [hf] at heq
    injection heq with h2
    subst h2
    rfl

/-- Everything visited or still stacked ends up in the traversal result. -/
theorem dfsVisit_mem (g : NarrativeGraph) (stack visited : List String) :
    ∀ V, g.dfsVisit stack visited = some V →
      (∀ x ∈ visited, x ∈ V) ∧ (∀ x ∈ stack, x ∈ V) := by
  induction stack, visited using NarrativeGraph.dfsVisit.induct g with
  | case1 v =>
    intro V hV
    rw [dfsVisit_nil] at hV
    cases hV
    exact ⟨fun x hx => hx, fun x hx => absurd hx (List.not_mem_nil x)⟩
  | case2 v c rest hcv ih =>
    intro V hV
    rw [dfsVisit_cons_visited g c rest v hcv] at hV
    rcases ih V hV with ⟨h1, h2⟩
    refine ⟨h1, fun x hx => ?_⟩
    rcases List.mem_cons.mp hx with hx | hx
    · subst hx
      exact h1 x hcv
    · exact h2 x hx
  | case3 v c rest hcv hf =>
    intro V hV
    rw [dfsVisit_cons_missing g c rest v hcv hf] at hV
    cases hV
  | case4 v c rest hcv pr hf ih =>
    intro V hV
    rw [dfsVisit_cons_found g c rest v hcv pr hf] at hV
    rcases ih V hV with ⟨h1, h2⟩
    refine ⟨fun x hx => h1 x (List.mem_cons_of_mem c hx), fun x hx => ?_⟩
    rcases List.mem_cons.mp hx with hx | hx
    · subst hx
      exact h1 x (List.mem_cons_self x v)
    · exact h2 x (List.mem_append_right _ hx)

/-- Soundness: starting from reachable stack and visited ids, every id
in the traversal result is reachable. -/
theorem dfsVisit_sound (g : NarrativeGraph) (s : String) (stack visited : List String) :
    (∀ x ∈ visited, Reaches g s x) → (∀ x ∈ stack, Reaches g s x) →
    ∀ V, g.dfsVisit stack visited = some V → ∀ x ∈ V, Reaches g s x := by
  induction stack, visited using NarrativeGraph.dfsVisit.induct g with
  | case1 v =>
    intro hv _ V hV
    rw [dfsVisit_nil] at hV
    cases hV
    exact hv
  | case2 v c rest hcv ih =>
    intro hv hs V hV
    rw [dfsVisit_cons_visited g c rest v hcv] at hV
    exact ih hv (fun x hx => hs x (List.mem_cons_of_mem c hx)) V hV
  | case3 v c rest hcv hf =>
    intro _ _ V hV
    rw [dfsVisit_cons_missing g c rest v hcv hf] at hV
    cases hV
  | case4 v c rest hcv pr hf ih =>
    intro hv hs V hV
    rw [dfsVisit_cons_found g c rest v hcv pr hf] at hV
    have hreach_c : Reaches g s c := hs c (List.mem_cons_self c rest)
    refine ih ?_ ?_ V hV
    · intro x hx
      rcases List.mem_cons.mp hx with hx | hx
      · subst hx
        exact hreach_c
      · exact hv x hx
    · intro x hx
      rcases List.mem_append.mp hx with hx | hx
      · have hx' : x ∈ (keyTargets pr.2).filter (fun t => t ∉ c :: v) :=
          List.mem_reverse.mp hx
        have hxt : x ∈ keyTargets pr.2 := List.mem_of_mem_filter hx'
        exact Reaches.step hreach_c ⟨pr, hf, hxt⟩
      · exact hs x (List.mem_cons_of_mem c hx)

/-- Closure: when every visited id has all its key-edge targets visited
or stacked, the traversal result is closed under key edges. -/
theorem dfsVisit_closed (g : NarrativeGraph) (stack visited : List String) :
    (∀ v ∈ visited, ∀ t, KeyEdge g v t → t ∈ visited ∨ t ∈ stack) →
    ∀ V, g.dfsVisit stack visited = some V →
    ∀ v ∈ V, ∀ t, KeyEdge g v t → t ∈ V := by
  induction stack, visited using NarrativeGraph.dfsVisit.induct g with
  | case1 v =>
    intro hinv V hV
    rw [dfsVisit_nil] at hV
    cases hV
    intro x hx t ht
    rcases hinv x hx t ht with h | h
    · exact h
    · exact absurd h (List.not_mem_nil t)
  | case2 v c rest hcv ih =>
    intro hinv V hV
    rw [dfsVisit_cons_visited g c rest v hcv] at hV
    refine ih ?_ V hV
    intro x hx t ht
    rcases hinv x hx t ht with h | h
    · exact Or.inl h
    · rcases List.mem_cons.mp h with h | h
      · subst h
        exact Or.inl hcv
      · exact Or.inr h
  | case3 v c rest hcv hf =>
    intro _ V hV
    rw [dfsVisit_cons_missing g c rest v hcv hf] at hV
    cases hV
  | case4 v c rest hcv pr hf ih =>
    intro hinv V hV
    rw [dfsVisit_cons_found g c rest v hcv pr hf] at hV
    refine ih ?_ V hV
    intro x hx t ht
    rcases List.mem_cons.mp hx with hx | hx
    · subst hx
      rcases ht with ⟨pr', hf', hmem⟩
      rw [hf] at hf'
      injection hf' with h2
      subst h2
      by_cases hin : t ∈ x :: v
      · exact Or.inl hin
      · refine Or.inr (List.mem_append_left _ ?_)
        exact List.mem_reverse.mpr (List.mem_filter.mpr ⟨hmem, by simpa using hin⟩)
    · rcases hinv x hx t ht with h | h
      · exact Or.inl (List.mem_cons_of_mem c h)
      · rcases List.mem_cons.mp h with h | h
        · subst h
          exact Or.inl (List.mem_cons_self t v)
        · exact Or.inr (List.mem_append_right _ h)

/-- Totality: on a closed graph the traversal never raises as long as
every stacked id is a key. -/
theorem dfsVisit_total (g : NarrativeGraph) (hc : Closed g) (stack visited : List String) :
    (∀ x ∈ stack, x ∈ g.keys) → ∃ V, g.dfsVisit stack visited = some V := by
  induction stack, visited using NarrativeGraph.dfsVisit.induct g with
  | case1 v =>
    intro _
    exact ⟨v, dfsVisit_nil g v⟩
  | case2 v c rest hcv ih =>
    intro hst
    rw [dfsVisit_cons_visited g c rest v hcv]
    exact ih (fun x hx => hst x (List.mem_cons_of_mem c hx))
  | case3 v c rest hcv hf =>
    intro hst
    have hmem : c ∈ g.keys := hst c (List.mem_cons_self c rest)
    rcases List.mem_map.mp hmem with ⟨p, hp, hpc⟩
    have := List.find?_eq_none.mp hf p hp
    simp only [decide_eq_true_eq] at this
    exact absurd hpc this
  | case4 v c rest hcv pr hf ih =>
    intro hst
    rw [dfsVisit_cons_found g c rest v hcv pr hf]
    refine ih ?_
    intro x hx
    rcases List.mem_append.mp hx with hx | hx
    · have hx' : x ∈ (keyTargets pr.2).filter (fun t => t ∉ c :: v) :=
        List.mem_reverse.mp hx
      have hxt : x ∈ keyTargets pr.2 := List.mem_of_mem_filter hx'
      exact hc pr (List.mem_of_find?_eq_some hf) x hxt
    · exact hst x (List.mem_cons_of_mem c hx)

/-- C6: on a closed graph, get_reachable_nodes computes without error
the set of nodes reachable from the start node along bindings whose
action is a key action with a target node, visiting each node at most
once, and get_unreachable_nodes is exactly the node set of the graph
minus that reachable set. -/
theorem reachable_and_unreachable_complement (g : NarrativeGraph) (hc : Closed g) :
    ∃ R, g.get_reachable_nodes none = some R ∧
      (∀ x, x ∈ R ↔ ∃ s, effectiveStart g = some s ∧ Reaches g s x) ∧
      g.get_unreachable_nodes = some ((g.nodes.filter (fun p => p.1 ∉ R)).map Prod.snd) := by
  have hpy : pyOrStr none g.start_node_id = g.start_node_id := rfl
  cases hst : g.start_node_id with
  | none =>
    refine ⟨[], ?_, ?_, ?_⟩
    · unfold NarrativeGraph.get_reachable_nodes
      rw [hpy, hst]
    · intro x
      constructor
      · intro hx
        exact absurd hx (List.not_mem_nil x)
      · intro ⟨s, hs, _⟩
        unfold effectiveStart at hs
        rw [hst] at hs
        cases hs
    · unfold NarrativeGraph.get_unreachable_nodes
      unfold NarrativeGraph.get_reachable_nodes
      rw [hpy, hst]
      rfl
  | some s =>
    by_cases hbad : s = "" ∨ g.get_node s = none
    · refine ⟨[], ?_, ?_, ?_⟩
      · unfold NarrativeGraph.get_reachable_nodes
        rw [hpy, hst]
        simp only []
        rw [if_pos hbad]
      · intro x
        constructor
        · intro hx
          exact absurd hx (List.not_mem_nil x)
        · intro ⟨s', hs', _⟩
          unfold effectiveStart at hs'
          rw [hst] at hs'
          simp only [] at hs'
          rw [if_pos hbad] at hs'
          cases hs'
      · unfold NarrativeGraph.get_unreachable_nodes
        unfold NarrativeGraph.get_reachable_nodes
        rw [hpy, hst]
        simp only []
        rw [if_pos hbad]
        rfl
    · have hskeys : s ∈ g.keys := by
        rcases not_or.mp hbad with ⟨_, hn⟩
        unfold NarrativeGraph.get_node at hn
        cases hf : g.nodes.find? (fun p => p.1 = s) with
        | none => exact absurd (by rw [hf]; rfl) hn
        | some pr =>
          have hpc : pr.1 = s := by
            have := List.find?_some hf
            simpa using this
          exact hpc ▸ List.mem_map_of_mem Prod.fst (List.mem_of_find?_eq_some hf)
      rcases dfsVisit_total g hc [s] []
          (fun x hx => by rcases List.mem_cons.mp hx with hx | hx
                          · exact hx ▸ hskeys
                          · exact absurd hx (List.not_mem_nil x)) with ⟨V, hV⟩
      have heff : effectiveStart g = some s := by
        unfold effectiveStart
        rw [hst]
        simp only []
        rw [if_neg hbad]
      refine ⟨V, ?_, ?_, ?_⟩
      · unfold NarrativeGraph.get_reachable_nodes
        rw [hpy, hst]
        simp only []
        rw [if_neg hbad]
        exact hV
      · intro x
        constructor
        · intro hx
          refine ⟨s, heff, ?_⟩
          refine dfsVisit_sound g s [s] []
            (fun y hy => absurd hy (List.not_mem_nil y)) ?_ V hV x hx
          intro y hy
          rcases List.mem_cons.mp hy with hy | hy
          · exact hy ▸ Reaches.refl
          · exact absurd hy (List.not_mem_nil y)
        · intro ⟨s', hs', hreach⟩
          rw [heff] at hs'
          injection hs' with hs'
          subst hs'
          have hsV : s ∈ V :=
            (dfsVisit_mem g [s] [] V hV).2 s (List.mem_cons_self s [])
          have hclosed := dfsVisit_closed g [s] []
            (fun y hy => absurd hy (List.not_mem_nil y)) V hV
          induction hreach with
          | refl => exact hsV
          | step hr he ih => exact hclosed _ ih _ he
      · unfold NarrativeGraph.get_unreachable_nodes
        unfold NarrativeGraph.get_reachable_nodes
        rw [hpy, hst]
        simp only []
        rw [if_neg hbad, hV]
        rfl

theorem reachable_and_unreachable_complement_witness :
    ∃ R, exGraph.get_reachable_nodes none = some R ∧
      (∀ x, x ∈ R ↔ ∃ s, effectiveStart exGraph = some s ∧ Reaches exGraph s x) ∧
      exGraph.get_unreachable_nodes =
        some ((exGraph.nodes.filter (fun p => p.1 ∉ R)).map Prod.snd) :=
  reachable_and_unreachable_complement exGraph (by decide)

end Client

namespace Server

/-- Slicing does nothing to a string within the limit. -/
theorem pyTake_of_le (k : Nat) (s : String) (h : s.length ≤ k) : pyTake k s = s :=
  if_pos h

/-- A list splits into the parts satisfying and refuting a predicate. -/
theorem length_filter_partition {α : Type} (p q : α → Bool) (h : ∀ a, q a = !(p a)) :
    ∀ (l : List α), (l.filter p).length + (l.filter q).length = l.length := by
  intro l
  induction l with
  | nil => rfl
  | cons a l ih =>
    simp only [List.filter_cons, h a]
    cases hpa : p a <;> simp only [Bool.not_true, Bool.not_false, if_true, if_false,
      Bool.false_eq_true, Bool.true_eq_false, List.length_cons] <;> omega

/-- Counting a disjunction of disjoint predicates adds the counts. -/
theorem length_filter_or_disjoint {α : Type} (p q : α → Bool) (l : List α)
    (hdisj : ∀ a ∈ l, ¬(p a = true ∧ q a = true)) :
    (l.filter (fun a => p a || q a)).length = (l.filter p).length + (l.filter q).length := by
  induction l with
  | nil => rfl
  | cons a l ih =>
    have hd := hdisj a (List.mem_cons_self a l)
    have ih' := ih (fun x hx => hdisj x (List.mem_cons_of_mem a hx))
    simp only [List.filter_cons]
    cases hpa : p a
    · cases hqa : q a
      · simpa using ih'
      · simp only [Bool.false_or, Bool.true_or, hpa, hqa, if_true, Bool.false_eq_true,
          if_false, List.length_cons]
        omega
    · cases hqa : q a
      · simp only [Bool.false_or, Bool.true_or, hpa, hqa, if_true, Bool.false_eq_true,
          if_false, List.length_cons]
        omega
      · exact absurd ⟨hpa, hqa⟩ hd

/-- A flat map over functions producing nothing produces nothing. -/
theorem flatMap_nil_of_all {α β : Type} (N : List α) (f : α → List β)
    (h : ∀ m ∈ N, f m = []) : N.flatMap f = [] := by
  induction N with
  | nil => rfl
  | cons m N ih =>
    rw [List.flatMap_cons, h m (List.mem_cons_self m N),
      ih (fun x hx => h x (List.mem_cons_of_mem m hx))]
    rfl

/-- A flat map over nodes with pairwise distinct ids that is empty away
from one node collapses to that node. -/
theorem flatMap_single_node {β : Type} (N : List DBNode) (f : DBNode → List β) (n : DBNode)
    (hn : n ∈ N) (hid : (N.map (fun m => m.id)).Nodup)
    (hz : ∀ m ∈ N, m.id ≠ n.id → f m = []) : N.flatMap f = f n := by
  induction N with
  | nil => exact absurd hn (List.not_mem_nil n)
  | cons m N ih =>
    rw [List.flatMap_cons]
    rw [List.map_cons] at hid
    rcases List.nodup_cons.mp hid with ⟨hmid, hidN⟩
    by_cases hmn : m.id = n.id
    · have hnm : n = m := by
        rcases List.mem_cons.mp hn with h | h
        · exact h
        · exact absurd (hmn ▸ List.mem_map_of_mem (fun x => x.id) h) hmid
      subst hnm
      rw [flatMap_nil_of_all N f (fun x hx => hz x (List.mem_cons_of_mem n hx)
        (fun hc => hmid (hc ▸ List.mem_map_of_mem (fun y => y.id) hx)))]
      rw [List.append_nil]
    · have hnN : n ∈ N := by
        rcases List.mem_cons.mp hn with h | h
        · exact absurd (congrArg (fun x => x.id) h.symm) hmn
        · exact h
      rw [hz m (List.mem_cons_self m N) hmn, List.nil_append]
      exact ih hnN hidN (fun x hx hxn => hz x (List.mem_cons_of_mem m hx) hxn)

/-- On an id-unique action table, find? by id returns the member. -/
theorem find?_action_of_mem_nodup (l : List DBAction) (aid : String) (a : DBAction)
    (ha : a ∈ l) (haid : a.id = aid) (hnd : (l.map (fun x => x.id)).Nodup) :
    l.find? (fun x => x.id = aid) = some a := by
  induction l with
  | nil => exact absurd ha (List.not_mem_nil a)
  | cons x l ih =>
    rw [List.map_cons] at hnd
    rcases List.nodup_cons.mp hnd with ⟨hxid, hidl⟩
    by_cases hx : x.id = aid
    · have hax : a = x := by
        rcases List.mem_cons.mp ha with h | h
        · exact h
        · exact absurd ((haid.trans hx.symm) ▸ List.mem_map_of_mem (fun y => y.id) h) hxid
      subst hax
      rw [List.find?_cons_of_pos _ (by simpa using hx)]
    · have hal : a ∈ l := by
        rcases List.mem_cons.mp ha with h | h
        · exact absurd (h ▸ haid) hx
        · exact h
      rw [List.find?_cons_of_neg _ (by simpa using hx)]
      exact ih hal hidl

/-- find? by id commutes with an id-preserving map over the projects. -/
theorem find?_project_map (l : List Project) (pid : String) (f : Project → Project)
    (hf : ∀ p, (f p).id = p.id) :
    (l.map f).find? (fun p => p.id = pid) = (l.find? (fun p => p.id = pid)).map f := by
  induction l with
  | nil => rfl
  | cons p l ih =>
    by_cases hp : p.id = pid
    · rw [List.map_cons, List.find?_cons_of_pos _ (by simp [hf, hp]),
        List.find?_cons_of_pos _ (by simpa using hp)]
      rfl
    · rw [List.map_cons, List.find?_cons_of_neg _ (by simp [hf, hp]),
        List.find?_cons_of_neg _ (by simpa using hp), ih]

/-- Updating a field to its current value changes nothing. -/
theorem project_update_self (p : Project) (v : Option String) (h : p.start_node_id = v) :
    ({ p with start_node_id := v } : Project) = p := by
  cases p
  cases h
  rfl

/-- The first reconstruction pass appends the recreated node and event
rows in document order. -/
theorem foldl_create_nodes_events (pid : String) (docs : List (String × NodeDoc)) :
    ∀ (σ : ServerDB),
      docs.foldl (fun σ p => safe_create_node_and_events pid p.2 σ) σ =
        { σ with nodes := σ.nodes ++ docs.map (fun p => newNodeRow pid p.2),
                 events := σ.events ++ docs.flatMap (fun p => newEventRows p.2) } := by
  induction docs with
  | nil =>
    intro σ
    simp
  | cons d docs ih =>
    intro σ
    rw [List.foldl_cons, ih]
    unfold safe_create_node_and_events
    simp [List.append_assoc]

/-- The second reconstruction pass appends the recreated action and
binding rows of one node document. -/
theorem safe_create_actions_and_bindings_eq (nd : NodeDoc) (σ : ServerDB) :
    safe_create_actions_and_bindings nd σ =
      { σ with actions := σ.actions ++ actionRowsOf nd,
               bindings := σ.bindings ++ bindingRowsOf nd } := by
  unfold safe_create_actions_and_bindings actionRowsOf bindingRowsOf
  have haux : ∀ (l : List ActionDoc) (σ : ServerDB),
      l.foldl (fun σ ad =>
        if ad.action.id = "" then σ
        else
          let σ₁ := { σ with actions := σ.actions ++ [newActionRow ad] }
          if ad.binding_id = "" then σ₁
          else { σ₁ with bindings := σ₁.bindings ++ [newBindingRow nd ad] }) σ =
      { σ with
        actions := σ.actions ++ l.filterMap (fun ad =>
          if ad.action.id = "" then none else some (newActionRow ad)),
        bindings := σ.bindings ++ l.filterMap (fun ad =>
          if ad.action.id = "" then none
          else if ad.binding_id = "" then none
          else some (newBindingRow nd ad)) } := by
    intro l
    induction l with
    | nil =>
      intro σ
      simp
    | cons ad l ih =>
      intro σ
      rw [List.foldl_cons]
      by_cases h1 : ad.action.id = ""
      · rw [if_pos h1, ih]
        simp [h1]
      · rw [if_neg h1]
        by_cases h2 : ad.binding_id = ""
        · simp only [if_pos h2]
          rw [ih]
          simp [h1, h2, List.filterMap_cons, List.append_assoc]
        · simp only [if_neg h2]
          rw [ih]
          simp [h1, h2, List.filterMap_cons, List.append_assoc]
  exact haux nd.actions σ

/-- The second reconstruction pass over all node documents. -/
theorem foldl_create_actions_all (docs : List (String × NodeDoc)) :
    ∀ (σ : ServerDB),
      docs.foldl (fun σ p => safe_create_actions_and_bindings p.2 σ) σ =
        { σ with actions := σ.actions ++ docs.flatMap (fun p => actionRowsOf p.2),
                 bindings := σ.bindings ++ docs.flatMap (fun p => bindingRowsOf p.2) } := by
  induction docs with
  | nil =>
    intro σ
    simp
  | cons d docs ih =>
    intro σ
    rw [List.foldl_cons, safe_create_actions_and_bindings_eq, ih]
    simp [List.append_assoc]

/-- The whole reconstruction: append the recreated rows, then update
the project info against them. -/
theorem safe_recreate_eq (pid : String) (raw : RawSnap) (σ : ServerDB) :
    safe_recreate_from_snapshot pid raw σ =
      safe_update_project_info pid raw
        { σ with nodes := σ.nodes ++ (nodesDataOf raw).map (fun p => newNodeRow pid p.2),
                 events := σ.events ++ (nodesDataOf raw).flatMap (fun p => newEventRows p.2),
                 actions := σ.actions ++ (nodesDataOf raw).flatMap (fun p => actionRowsOf p.2),
                 bindings := σ.bindings ++ (nodesDataOf raw).flatMap (fun p => bindingRowsOf p.2) } := by
  unfold safe_recreate_from_snapshot
  simp only []
  rw [foldl_create_nodes_events, foldl_create_actions_all]

end Server

namespace Server

/-- filterMap with a function that maps every member to itself. -/
theorem filterMap_congr_some {α : Type} (l : List α) (F : α → Option α)
    (h : ∀ a ∈ l, F a = some a) : l.filterMap F = l := by
  induction l with
  | nil => rfl
  | cons a l ih =>
    rw [List.filterMap_cons, h a (List.mem_cons_self a l),
      ih (fun x hx => h x (List.mem_cons_of_mem a hx))]

/-- filterMap respects pointwise equality on the list. -/
theorem filterMap_congr_fun {α β : Type} (l : List α) (F G : α → Option β)
    (h : ∀ a ∈ l, F a = G a) : l.filterMap F = l.filterMap G := by
  induction l with
  | nil => rfl
  | cons a l ih =>
    rw [List.filterMap_cons, List.filterMap_cons, h a (List.mem_cons_self a l),
      ih (fun x hx => h x (List.mem_cons_of_mem a hx))]

/-- filterMap of an everywhere-some function is a map. -/
theorem filterMap_some_map {α β : Type} (l : List α) (f : α → β) :
    l.filterMap (fun a => some (f a)) = l.map f := by
  induction l with
  | nil => rfl
  | cons a l ih => rw [List.filterMap_cons, List.map_cons, ih]

/-- flatMap respects pointwise equality on the list. -/
theorem flatMap_congr {α β : Type} (l : List α) (f g : α → List β)
    (h : ∀ a ∈ l, f a = g a) : l.flatMap f = l.flatMap g := by
  induction l with
  | nil => rfl
  | cons a l ih =>
    rw [List.flatMap_cons, List.flatMap_cons, h a (List.mem_cons_self a l),
      ih (fun x hx => h x (List.mem_cons_of_mem a hx))]

/-- Recreating the node row serialized from a well-formed node yields
the node back. -/
theorem newNodeRow_roundtrip (pid : String) (σ : ServerDB) (n : DBNode)
    (hmem : n ∈ projNodes pid σ) (h1 : n.scene.length ≤ 2000)
    (h2 : n.node_type ≠ "") (h3 : n.node_type.length ≤ 50) (h4 : 0 ≤ n.level) :
    newNodeRow pid (nodeDocOf σ n) = n := by
  have hpid : n.project_id = pid := by
    have := List.of_mem_filter hmem
    simpa using this
  unfold newNodeRow nodeDocOf pyOrDefault
  simp only []
  rw [if_neg h2, pyTake_of_le 2000 n.scene h1, pyTake_of_le 50 n.node_type h3,
    max_eq_right h4, ← hpid]

/-- Recreating the event rows serialized from a node yields its events
back. -/
theorem newEventRows_roundtrip (σ : ServerDB) (n : DBNode)
    (hb : ∀ e ∈ nodeEvents σ n.id, e.id ≠ "" ∧ e.speaker.length ≤ 200 ∧
      e.content.length ≤ 5000 ∧ e.description.length ≤ 1000 ∧ 0 ≤ e.timestamp ∧
      e.event_type ≠ "" ∧ e.event_type.length ≤ 50) :
    newEventRows (nodeDocOf σ n) = nodeEvents σ n.id := by
  unfold newEventRows nodeDocOf
  simp only []
  rw [List.filterMap_map]
  apply filterMap_congr_some
  intro e he
  rcases hb e he with ⟨hid, hsp, hco, hde, hts, hetne, het⟩
  have hnode : e.node_id = n.id := by
    have := List.of_mem_filter he
    simpa using this
  simp only [Function.comp]
  unfold eventDocOf pyOrDefault
  simp only []
  rw [if_neg hid, if_neg hetne]
  rw [pyTake_of_le 200 e.speaker hsp, pyTake_of_le 5000 e.content hco,
    pyTake_of_le 1000 e.description hde, max_eq_right hts,
    pyTake_of_le 50 e.event_type het, ← hnode]

/-- Recreating the action rows serialized from a node yields, binding
by binding, the resolved original actions. -/
theorem actionRowsOf_roundtrip (σ : ServerDB) (n : DBNode)
    (hb : ∀ b ∈ nodeBindings σ n.id, b.action_id ≠ "" ∧
      ∃ a ∈ σ.actions, findAction σ b.action_id = some a ∧
        a.event_id = none ∧ a.description.length ≤ 500) :
    actionRowsOf (nodeDocOf σ n) =
      (nodeBindings σ n.id).filterMap (fun b => findAction σ b.action_id) := by
  unfold actionRowsOf nodeDocOf
  simp only []
  rw [List.filterMap_filterMap]
  apply filterMap_congr_fun
  intro b hbmem
  rcases hb b hbmem with ⟨hne, a, _, hfind, hev, hdesc⟩
  have haid : a.id = b.action_id := by
    have := List.find?_some hfind
    simpa using this
  unfold actionDocOf
  rw [hfind]
  simp only [Option.map_some', Option.some_bind]
  rw [if_neg (fun hc => hne (haid ▸ hc))]
  unfold newActionRow
  simp only []
  rw [pyTake_of_le 500 a.description hdesc, ← hev]

/-- Recreating the binding rows serialized from a node yields its
bindings back. -/
theorem bindingRowsOf_roundtrip (σ : ServerDB) (n : DBNode)
    (hb : ∀ b ∈ nodeBindings σ n.id, b.id ≠ "" ∧ b.action_id ≠ "" ∧
      ∃ a ∈ σ.actions, findAction σ b.action_id = some a) :
    bindingRowsOf (nodeDocOf σ n) = nodeBindings σ n.id := by
  unfold bindingRowsOf nodeDocOf
  simp only []
  rw [List.filterMap_filterMap]
  apply filterMap_congr_some
  intro b hbmem
  rcases hb b hbmem with ⟨hbid, hne, a, _, hfind⟩
  have haid : a.id = b.action_id := by
    have := List.find?_some hfind
    simpa using this
  have hsrc : b.source_node_id = n.id := by
    have := List.of_mem_filter hbmem
    simpa using this
  unfold actionDocOf
  rw [hfind]
  simp only [Option.map_some', Option.some_bind]
  rw [if_neg (fun hc => hne (haid ▸ hc)), if_neg hbid]
  unfold newBindingRow
  simp only []
  rw [haid, ← hsrc]

/-- The binding-derived action ids collected before teardown are
exactly the binding action ids of the given nodes, in order. -/
theorem collectBindingActionIds_eq (σ : ServerDB) (N : List DBNode)
    (h : ∀ n ∈ N, ∀ b ∈ nodeBindings σ n.id, b.action_id ≠ "") :
    collectBindingActionIds σ N =
      N.flatMap (fun n => (nodeBindings σ n.id).map (fun b => b.action_id)) := by
  unfold collectBindingActionIds
  apply flatMap_congr
  intro n hn
  rw [← filterMap_some_map (nodeBindings σ n.id) (fun b => b.action_id)]
  apply filterMap_congr_fun
  intro b hbmem
  rw [if_neg (h n hn b hbmem)]

/-- With no event-linked actions on the project nodes, the event-action
collection is empty. -/
theorem collectEventActionIds_eq_nil (σ : ServerDB) (N : List DBNode)
    (h : ∀ n ∈ N, ∀ e ∈ nodeEvents σ n.id,
      σ.actions.filter (fun a => a.event_id = some e.id) = []) :
    collectEventActionIds σ N = [] := by
  unfold collectEventActionIds
  apply flatMap_nil_of_all
  intro n hn
  apply flatMap_nil_of_all
  intro e he
  rw [h n hn e he]
  rfl

end Server

namespace Server

/-- The ids of recreated actions are the binding action ids. -/
theorem map_id_filterMap_find (σ : ServerDB) :
    ∀ (l : List DBBinding), (∀ b ∈ l, ∃ a, findAction σ b.action_id = some a) →
      (l.filterMap (fun b => findAction σ b.action_id)).map (fun x => x.id) =
        l.map (fun b => b.action_id) := by
  intro l
  induction l with
  | nil => intro _; rfl
  | cons b l ih =>
    intro h
    rcases h b (List.mem_cons_self b l) with ⟨a, ha⟩
    have haid : a.id = b.action_id := by
      have := List.find?_some ha
      simpa using this
    rw [List.filterMap_cons, ha, List.map_cons, List.map_cons,
      ih (fun x hx => h x (List.mem_cons_of_mem b hx)), haid]

/-- Partitioning a keyed table by a list of distinct node ids: the
rows grouped per node count the rows whose key is one of the ids. -/
theorem length_flatMap_key {α : Type} (key : α → String) (tbl : List α) :
    ∀ (N : List DBNode), (N.map (fun m => m.id)).Nodup →
      (N.flatMap (fun n => tbl.filter (fun x => key x = n.id))).length =
        (tbl.filter (fun x => key x ∈ N.map (fun m => m.id))).length := by
  intro N
  induction N with
  | nil =>
    intro _
    simp
  | cons n N ih =>
    intro hnd
    rw [List.map_cons] at hnd
    rcases List.nodup_cons.mp hnd with ⟨hnid, hndN⟩
    rw [List.flatMap_cons, List.length_append, ih hndN, List.map_cons]
    have hcong : tbl.filter (fun x => key x ∈ n.id :: N.map (fun m => m.id)) =
        tbl.filter (fun x =>
          (decide (key x = n.id)) || (decide (key x ∈ N.map (fun m => m.id)))) := by
      apply List.filter_congr
      intro x _
      simp [List.mem_cons]
    rw [hcong, length_filter_or_disjoint _ _ tbl (fun x _ hx => by
      rcases hx with ⟨h1, h2⟩
      simp only [decide_eq_true_eq] at h1 h2
      exact hnid (h1 ▸ h2))]

end Server

namespace Server

/-- C3 amended: on a well-formed quiescent project state (unique ids,
serializer-respecting field bounds, every binding realizing its own
standalone action, a resolving start pointer, and no event-linked
actions), applying the snapshot of the state back onto the store
succeeds and restores the project structurally: the same node rows, the
same per-node event and binding rows, the same resolved action for
every binding, the same project record, the same table sizes, and an
untouched ledger. -/
theorem snapshot_restore_roundtrip (pid : String) (σ : ServerDB) (hwf : RoundTripWF pid σ) :
    ∃ σr, apply_snapshot_safe pid (create_current_snapshot pid σ) σ = Except.ok σr ∧
      projNodes pid σr = projNodes pid σ ∧
      (∀ n ∈ projNodes pid σ, nodeEvents σr n.id = nodeEvents σ n.id) ∧
      (∀ n ∈ projNodes pid σ, nodeBindings σr n.id = nodeBindings σ n.id) ∧
      (∀ n ∈ projNodes pid σ, ∀ b ∈ nodeBindings σ n.id,
         findAction σr b.action_id = findAction σ b.action_id) ∧
      σr.projects.find? (fun p => p.id = pid) = σ.projects.find? (fun p => p.id = pid) ∧
      σr.nodes.length = σ.nodes.length ∧
      σr.events.length = σ.events.length ∧
      σr.actions.length = σ.actions.length ∧
      σr.bindings.length = σ.bindings.length ∧
      σr.history = σ.history := by
  obtain ⟨hproj, hprojnd, hnodesnd, hactnd, hbandnd, hnb, heb, hbb, hstart, hnoev⟩ := hwf
  obtain ⟨p0, hp0⟩ := Option.isSome_iff_exists.mp hproj
  have hp0id : p0.id = pid := by
    have := List.find?_some hp0
    simpa using this
  have hp0mem : p0 ∈ σ.projects := List.mem_of_find?_eq_some hp0
  have hcur : σ.nodes.filter (fun n => n.project_id = pid) = projNodes pid σ := rfl
  have hNmem : ∀ n ∈ projNodes pid σ, n.project_id = pid := by
    intro n hn
    have := List.of_mem_filter hn
    simpa using this
  have hNid_nodup : ((projNodes pid σ).map (fun m => m.id)).Nodup :=
    hnodesnd.sublist ((List.filter_sublist σ.nodes).map (fun m => m.id))
  -- the serialized snapshot and its pieces
  have h_snap : create_current_snapshot pid σ =
      RawSnap.dict
        (some (RawNodes.dict ((projNodes pid σ).map (fun n => (n.id, nodeDocOf σ n)))))
        (some { id := p0.id, title := p0.title, description := p0.description,
                start_node_id := p0.start_node_id }) := by
    unfold create_current_snapshot
    rw [hp0]
  have hD : nodesDataOf (create_current_snapshot pid σ) =
      (projNodes pid σ).map (fun n => (n.id, nodeDocOf σ n)) := by
    rw [h_snap]
    rfl
  have hinfo : projInfoOf (create_current_snapshot pid σ) =
      some { id := p0.id, title := p0.title, description := p0.description,
             start_node_id := p0.start_node_id } := by
    rw [h_snap]
    rfl
  have hcheck : checkSnapshotData (create_current_snapshot pid σ) = true := by
    rw [h_snap]
    rfl
  have happly : apply_snapshot_safe pid (create_current_snapshot pid σ) σ =
      Except.ok (safe_recreate_from_snapshot pid (create_current_snapshot pid σ)
        (safe_delete_project_data pid (σ.nodes.filter (fun n => n.project_id = pid)) σ)) := by
    unfold apply_snapshot_safe
    rw [hcheck]
    rfl
  -- the torn-down store
  have h1n : (safe_delete_project_data pid (σ.nodes.filter (fun n => n.project_id = pid)) σ).nodes =
      σ.nodes.filter (fun n => n.project_id ≠ pid) := rfl
  have h1e : (safe_delete_project_data pid (σ.nodes.filter (fun n => n.project_id = pid)) σ).events =
      σ.events.filter (fun e =>
        e.node_id ∉ (σ.nodes.filter (fun n => n.project_id = pid)).map (fun n => n.id)) := rfl
  have h1b : (safe_delete_project_data pid (σ.nodes.filter (fun n => n.project_id = pid)) σ).bindings =
      σ.bindings.filter (fun b =>
        b.source_node_id ∉ (σ.nodes.filter (fun n => n.project_id = pid)).map (fun n => n.id)) := rfl
  have h1a : (safe_delete_project_data pid (σ.nodes.filter (fun n => n.project_id = pid)) σ).actions =
      σ.actions.filter (fun a =>
        a.id ∉ (collectBindingActionIds σ (σ.nodes.filter (fun n => n.project_id = pid)) ++
          collectEventActionIds σ (σ.nodes.filter (fun n => n.project_id = pid))).dedup) := rfl
  have h1p : (safe_delete_project_data pid (σ.nodes.filter (fun n => n.project_id = pid)) σ).projects =
      σ.projects.map (fun (p : Project) =>
        if p.id = pid ∧ pyTruthy p.start_node_id then { p with start_node_id := none } else p) := rfl
  have h1h : (safe_delete_project_data pid (σ.nodes.filter (fun n => n.project_id = pid)) σ).history =
      σ.history := rfl
  -- the collected action ids
  have hU : (collectBindingActionIds σ (σ.nodes.filter (fun n => n.project_id = pid)) ++
      collectEventActionIds σ (σ.nodes.filter (fun n => n.project_id = pid))).dedup =
      (projNodes pid σ).flatMap (fun n => (nodeBindings σ n.id).map (fun b => b.action_id)) := by
    rw [hcur]
    rw [collectBindingActionIds_eq σ (projNodes pid σ)
      (fun n hn b hb => (hbb n hn b hb).2.1)]
    rw [collectEventActionIds_eq_nil σ (projNodes pid σ) (fun n hn e he => by
      apply List.filter_eq_nil_iff.mpr
      intro a ha
      simp only [decide_eq_true_eq]
      intro hc
      exact hnoev a ha e.id hc n hn e he rfl)]
    rw [List.append_nil]
    exact List.dedup_eq_self.mpr hbandnd
  -- the recreated rows
  have hDn : ((projNodes pid σ).map (fun n => (n.id, nodeDocOf σ n))).map
      (fun p => newNodeRow pid p.2) = projNodes pid σ := by
    rw [List.map_map]
    show (projNodes pid σ).map (fun n => newNodeRow pid (nodeDocOf σ n)) = projNodes pid σ
    rw [List.map_congr_left (fun n hn =>
      newNodeRow_roundtrip pid σ n hn (hnb n hn).1 (hnb n hn).2.1 (hnb n hn).2.2.1
        (hnb n hn).2.2.2)]
    exact List.map_id' (projNodes pid σ)
  have hDe : ((projNodes pid σ).map (fun n => (n.id, nodeDocOf σ n))).flatMap
      (fun p => newEventRows p.2) = (projNodes pid σ).flatMap (fun n => nodeEvents σ n.id) := by
    rw [List.flatMap_map]
    exact flatMap_congr _ _ _ (fun n hn => newEventRows_roundtrip σ n (heb n hn))
  have hDa : ((projNodes pid σ).map (fun n => (n.id, nodeDocOf σ n))).flatMap
      (fun p => actionRowsOf p.2) =
      (projNodes pid σ).flatMap (fun n =>
        (nodeBindings σ n.id).filterMap (fun b => findAction σ b.action_id)) := by
    rw [List.flatMap_map]
    exact flatMap_congr _ _ _ (fun n hn => actionRowsOf_roundtrip σ n
      (fun b hb => ⟨(hbb n hn b hb).2.1, (hbb n hn b hb).2.2⟩))
  have hDb : ((projNodes pid σ).map (fun n => (n.id, nodeDocOf σ n))).flatMap
      (fun p => bindingRowsOf p.2) = (projNodes pid σ).flatMap (fun n => nodeBindings σ n.id) := by
    rw [List.flatMap_map]
    refine flatMap_congr _ _ _ (fun n hn => bindingRowsOf_roundtrip σ n (fun b hb => ?_))
    rcases hbb n hn b hb with ⟨hid, hne, a, ha, hfind, _, _⟩
    exact ⟨hid, hne, a, ha, hfind⟩
  -- the restored store, table by table
  have hrn : (safe_recreate_from_snapshot pid (create_current_snapshot pid σ)
      (safe_delete_project_data pid (σ.nodes.filter (fun n => n.project_id = pid)) σ)).nodes =
      σ.nodes.filter (fun n => n.project_id ≠ pid) ++ projNodes pid σ := by
    rw [safe_recreate_eq, hD]
    show (safe_delete_project_data pid (σ.nodes.filter (fun n => n.project_id = pid)) σ).nodes ++
        ((projNodes pid σ).map (fun n => (n.id, nodeDocOf σ n))).map
          (fun p => newNodeRow pid p.2) = _
    rw [h1n, hDn]
  have hre : (safe_recreate_from_snapshot pid (create_current_snapshot pid σ)
      (safe_delete_project_data pid (σ.nodes.filter (fun n => n.project_id = pid)) σ)).events =
      σ.events.filter (fun e => e.node_id ∉ (projNodes pid σ).map (fun n => n.id)) ++
        (projNodes pid σ).flatMap (fun n => nodeEvents σ n.id) := by
    rw [safe_recreate_eq, hD]
    show (safe_delete_project_data pid (σ.nodes.filter (fun n => n.project_id = pid)) σ).events ++
        ((projNodes pid σ).map (fun n => (n.id, nodeDocOf σ n))).flatMap
          (fun p => newEventRows p.2) = _
    rw [h1e, hDe, hcur]
  have hrb : (safe_recreate_from_snapshot pid (create_current_snapshot pid σ)
      (safe_delete_project_data pid (σ.nodes.filter (fun n => n.project_id = pid)) σ)).bindings =
      σ.bindings.filter (fun b => b.source_node_id ∉ (projNodes pid σ).map (fun n => n.id)) ++
        (projNodes pid σ).flatMap (fun n => nodeBindings σ n.id) := by
    rw [safe_recreate_eq, hD]
    show (safe_delete_project_data pid (σ.nodes.filter (fun n => n.project_id = pid)) σ).bindings ++
        ((projNodes pid σ).map (fun n => (n.id, nodeDocOf σ n))).flatMap
          (fun p => bindingRowsOf p.2) = _
    rw [h1b, hDb, hcur]
  have hra : (safe_recreate_from_snapshot pid (create_current_snapshot pid σ)
      (safe_delete_project_data pid (σ.nodes.filter (fun n => n.project_id = pid)) σ)).actions =
      σ.actions.filter (fun a =>
        a.id ∉ (projNodes pid σ).flatMap (fun n => (nodeBindings σ n.id).map (fun b => b.action_id))) ++
        (projNodes pid σ).flatMap (fun n =>
          (nodeBindings σ n.id).filterMap (fun b => findAction σ b.action_id)) := by
    rw [safe_recreate_eq, hD]
    show (safe_delete_project_data pid (σ.nodes.filter (fun n => n.project_id = pid)) σ).actions ++
        ((projNodes pid σ).map (fun n => (n.id, nodeDocOf σ n))).flatMap
          (fun p => actionRowsOf p.2) = _
    rw [h1a, hDa, hU]
  have hrh : (safe_recreate_from_snapshot pid (create_current_snapshot pid σ)
      (safe_delete_project_data pid (σ.nodes.filter (fun n => n.project_id = pid)) σ)).history =
      σ.history := by
    rw [safe_recreate_eq]
    show (safe_delete_project_data pid (σ.nodes.filter (fun n => n.project_id = pid)) σ).history = _
    rw [h1h]
  -- recreated action ids are the binding action ids
  have hRAids : ((projNodes pid σ).flatMap (fun n =>
      (nodeBindings σ n.id).filterMap (fun b => findAction σ b.action_id))).map (fun x => x.id) =
      (projNodes pid σ).flatMap (fun n => (nodeBindings σ n.id).map (fun b => b.action_id)) := by
    rw [List.map_flatMap]
    apply flatMap_congr
    intro m hm
    apply map_id_filterMap_find
    intro b hb
    rcases hbb m hm b hb with ⟨_, _, a, _, hfind, _, _⟩
    exact ⟨a, hfind⟩
  refine ⟨safe_recreate_from_snapshot pid (create_current_snapshot pid σ)
    (safe_delete_project_data pid (σ.nodes.filter (fun n => n.project_id = pid)) σ),
    happly, ?_, ?_, ?_, ?_, ?_, ?_, ?_, ?_, ?_, hrh⟩
  · -- project nodes restored
    unfold projNodes
    rw [hrn, List.filter_append]
    have hz : (σ.nodes.filter (fun n => n.project_id ≠ pid)).filter
        (fun n => n.project_id = pid) = [] := by
      apply List.filter_eq_nil_iff.mpr
      intro x hx
      have := List.of_mem_filter hx
      simpa using this
    have hs : (projNodes pid σ).filter (fun n => n.project_id = pid) = projNodes pid σ := by
      apply List.filter_eq_self.mpr
      intro n hn
      simpa using hNmem n hn
    rw [hz, hs, List.nil_append, hcur]
  · -- per-node events restored
    intro n hn
    unfold nodeEvents
    rw [hre, List.filter_append]
    have hz : (σ.events.filter (fun e =>
        e.node_id ∉ (projNodes pid σ).map (fun m => m.id))).filter
        (fun e => e.node_id = n.id) = [] := by
      apply List.filter_eq_nil_iff.mpr
      intro x hx
      have hnot := List.of_mem_filter hx
      simp only [decide_eq_true_eq] at hnot ⊢
      intro hc
      exact hnot (hc ▸ List.mem_map_of_mem (fun m => m.id) hn)
    have hs : ((projNodes pid σ).flatMap (fun m => nodeEvents σ m.id)).filter
        (fun e => e.node_id = n.id) = σ.events.filter (fun e => e.node_id = n.id) := by
      rw [List.filter_flatMap]
      rw [flatMap_single_node (projNodes pid σ) _ n hn hNid_nodup (fun m _ hm => by
        apply List.filter_eq_nil_iff.mpr
        intro e he
        have hee : e.node_id = m.id := by
          have := List.of_mem_filter he
          simpa using this
        simp only [decide_eq_true_eq]
        rw [hee]
        exact hm)]
      have hself : (nodeEvents σ n.id).filter (fun e => e.node_id = n.id) =
          nodeEvents σ n.id := by
        apply List.filter_eq_self.mpr
        intro e he
        have := List.of_mem_filter he
        simpa using this
      rw [hself]
      rfl
    rw [hz, hs, List.nil_append]
  · -- per-node bindings restored
    intro n hn
    unfold nodeBindings
    rw [hrb, List.filter_append]
    have hz : (σ.bindings.filter (fun b =>
        b.source_node_id ∉ (projNodes pid σ).map (fun m => m.id))).filter
        (fun b => b.source_node_id = n.id) = [] := by
      apply List.filter_eq_nil_iff.mpr
      intro x hx
      have hnot := List.of_mem_filter hx
      simp only [decide_eq_true_eq] at hnot ⊢
      intro hc
      exact hnot (hc ▸ List.mem_map_of_mem (fun m => m.id) hn)
    have hs : ((projNodes pid σ).flatMap (fun m => nodeBindings σ m.id)).filter
        (fun b => b.source_node_id = n.id) = σ.bindings.filter (fun b => b.source_node_id = n.id) := by
      rw [List.filter_flatMap]
      rw [flatMap_single_node (projNodes pid σ) _ n hn hNid_nodup (fun m _ hm => by
        apply List.filter_eq_nil_iff.mpr
        intro b hb
        have hbs : b.source_node_id = m.id := by
          have := List.of_mem_filter hb
          simpa using this
        simp only [decide_eq_true_eq]
        rw [hbs]
        exact hm)]
      have hself : (nodeBindings σ n.id).filter (fun b => b.source_node_id = n.id) =
          nodeBindings σ n.id := by
        apply List.filter_eq_self.mpr
        intro b hb
        have := List.of_mem_filter hb
        simpa using this
      rw [hself]
      rfl
    rw [hz, hs, List.nil_append]
  · -- bound actions restored
    intro n hn b hb
    rcases hbb n hn b hb with ⟨_, _, a, _, hfind, _, _⟩
    have haid : a.id = b.action_id := by
      have := List.find?_some hfind
      simpa using this
    have haidPA : b.action_id ∈ (projNodes pid σ).flatMap (fun m =>
        (nodeBindings σ m.id).map (fun x => x.action_id)) :=
      List.mem_flatMap.mpr ⟨n, hn, List.mem_map_of_mem (fun x => x.action_id) hb⟩
    unfold findAction
    rw [hra, List.find?_append]
    have hnone : (σ.actions.filter (fun x =>
        x.id ∉ (projNodes pid σ).flatMap (fun m =>
          (nodeBindings σ m.id).map (fun y => y.action_id)))).find?
        (fun x => x.id = b.action_id) = none := by
      apply List.find?_eq_none.mpr
      intro x hx
      have hxnot := List.of_mem_filter hx
      simp only [decide_eq_true_eq] at hxnot ⊢
      intro hc
      exact hxnot (hc ▸ haidPA)
    rw [hnone, Option.none_or]
    have hmemRA : a ∈ (projNodes pid σ).flatMap (fun m =>
        (nodeBindings σ m.id).filterMap (fun x => findAction σ x.action_id)) :=
      List.mem_flatMap.mpr ⟨n, hn, List.mem_filterMap.mpr ⟨b, hb, hfind⟩⟩
    rw [find?_action_of_mem_nodup _ b.action_id a hmemRA haid (by rw [hRAids]; exact hbandnd)]
    exact hfind.symm
  · -- the project record restored
    have hrp : (safe_recreate_from_snapshot pid (create_current_snapshot pid σ)
        (safe_delete_project_data pid (σ.nodes.filter (fun n => n.project_id = pid)) σ)).projects =
        (σ.projects.map (fun (p : Project) =>
          if p.id = pid ∧ pyTruthy p.start_node_id then { p with start_node_id := none } else p)).map
          (fun (p : Project) =>
            if p.id = pid then
              { p with start_node_id := (restoredStartId pid
                  (projInfoOf (create_current_snapshot pid σ))
                  (σ.nodes.filter (fun n => n.project_id ≠ pid) ++ projNodes pid σ)) }
            else p) := by
      rw [safe_recreate_eq]
      unfold safe_update_project_info
      simp only []
      rw [hD, hDn, h1n, h1p]
    rw [hrp]
    rw [find?_project_map _ pid _ (fun p => by
      by_cases hc : p.id = pid
      · rw [if_pos hc]
      · rw [if_neg hc])]
    rw [find?_project_map _ pid _ (fun p => by
      by_cases hc : p.id = pid ∧ pyTruthy p.start_node_id = true
      · rw [if_pos hc]
      · rw [if_neg hc])]
    rw [hp0]
    simp only [Option.map_some']
    congr 1
    cases hps : p0.start_node_id with
    | none =>
      have hclear : (if p0.id = pid ∧ pyTruthy none = true then
          { p0 with start_node_id := none } else p0) = p0 := by
        apply if_neg
        intro hc
        exact absurd hc.2 (by decide)
      rw [hclear, if_pos hp0id]
      have hrs : restoredStartId pid (projInfoOf (create_current_snapshot pid σ))
          (σ.nodes.filter (fun n => n.project_id ≠ pid) ++ projNodes pid σ) = none := by
        rw [hinfo]
        unfold restoredStartId
        simp only []
        rw [hps]
      rw [hrs]
      exact project_update_self p0 none hps
    | some s =>
      rcases hstart p0 hp0mem hp0id s hps with ⟨hsne, nw, hnwmem, hnwid, hnwpid⟩
      have htruthy : pyTruthy (some s) = true := by
        simpa [pyTruthy] using hsne
      rw [if_pos (show p0.id = pid ∧ pyTruthy (some s) = true from ⟨hp0id, htruthy⟩)]
      rw [if_pos (show ({ p0 with start_node_id := none } : Project).id = pid from hp0id)]
      have hany : ((σ.nodes.filter (fun n => n.project_id ≠ pid) ++ projNodes pid σ).any
          (fun nd => nd.id = s && nd.project_id = pid)) = true := by
        refine List.any_eq_true.mpr ⟨nw, List.mem_append_right _
          (List.mem_filter.mpr ⟨hnwmem, by simpa using hnwpid⟩), ?_⟩
        simp [hnwid, hnwpid]
      have hrs : restoredStartId pid (projInfoOf (create_current_snapshot pid σ))
          (σ.nodes.filter (fun n => n.project_id ≠ pid) ++ projNodes pid σ) = some s := by
        rw [hinfo]
        unfold restoredStartId
        simp only []
        rw [hps]
        simp only []
        rw [if_neg hsne, if_pos hany]
      rw [hrs]
      exact project_update_self p0 (some s) hps
  · -- node count preserved
    rw [hrn, List.length_append]
    have hpart := length_filter_partition (fun n : DBNode => n.project_id = pid)
      (fun n : DBNode => n.project_id ≠ pid)
      (fun a => by simp only [ne_eq, decide_not]) σ.nodes
    have hlenN : (σ.nodes.filter (fun n => n.project_id = pid)).length =
        (projNodes pid σ).length := by rw [hcur]
    omega
  · -- event count preserved
    rw [hre, List.length_append]
    have hpart := length_filter_partition
      (fun e : DBEvent => e.node_id ∈ (projNodes pid σ).map (fun n => n.id))
      (fun e : DBEvent => e.node_id ∉ (projNodes pid σ).map (fun n => n.id))
      (fun a => by simp only [decide_not]) σ.events
    have hflat : ((projNodes pid σ).flatMap (fun n =>
        σ.events.filter (fun x => x.node_id = n.id))).length =
        (σ.events.filter (fun x =>
          x.node_id ∈ (projNodes pid σ).map (fun m => m.id))).length :=
      length_flatMap_key (fun e : DBEvent => e.node_id) σ.events (projNodes pid σ) hNid_nodup
    have hev : ((projNodes pid σ).flatMap (fun n => nodeEvents σ n.id)).length =
        ((projNodes pid σ).flatMap (fun n =>
          σ.events.filter (fun x => x.node_id = n.id))).length := rfl
    omega
  · -- action count preserved
    rw [hra, List.length_append]
    have hpart := length_filter_partition
      (fun a : DBAction => a.id ∈ (projNodes pid σ).flatMap (fun n =>
        (nodeBindings σ n.id).map (fun b => b.action_id)))
      (fun a : DBAction => a.id ∉ (projNodes pid σ).flatMap (fun n =>
        (nodeBindings σ n.id).map (fun b => b.action_id)))
      (fun a => by simp only [decide_not]) σ.actions
    have hRAlen : ((projNodes pid σ).flatMap (fun n =>
        (nodeBindings σ n.id).filterMap (fun b => findAction σ b.action_id))).length =
        ((projNodes pid σ).flatMap (fun n =>
          (nodeBindings σ n.id).map (fun b => b.action_id))).length := by
      rw [← hRAids, List.length_map]
    have hfilt_nodup : ((σ.actions.filter (fun a =>
        a.id ∈ (projNodes pid σ).flatMap (fun n =>
          (nodeBindings σ n.id).map (fun b => b.action_id)))).map (fun a => a.id)).Nodup :=
      hactnd.sublist ((List.filter_sublist σ.actions).map (fun a => a.id))
    have hiff : ∀ x, x ∈ (σ.actions.filter (fun a =>
        a.id ∈ (projNodes pid σ).flatMap (fun n =>
          (nodeBindings σ n.id).map (fun b => b.action_id)))).map (fun a => a.id) ↔
        x ∈ (projNodes pid σ).flatMap (fun n =>
          (nodeBindings σ n.id).map (fun b => b.action_id)) := by
      intro x
      constructor
      · intro hx
        rcases List.mem_map.mp hx with ⟨a, ha, rfl⟩
        have := List.of_mem_filter ha
        simpa using this
      · intro hx
        rcases List.mem_flatMap.mp hx with ⟨n, hn, hxn⟩
        rcases List.mem_map.mp hxn with ⟨b, hb, rfl⟩
        rcases hbb n hn b hb with ⟨_, _, a, hamem, hfind, _, _⟩
        have haid : a.id = b.action_id := by
          have := List.find?_some hfind
          simpa using this
        refine List.mem_map.mpr ⟨a, ?_, haid⟩
        refine List.mem_filter.mpr ⟨hamem, ?_⟩
        simp only [decide_eq_true_eq]
        rw [haid]
        exact hx
    have hperm := (List.perm_ext_iff_of_nodup hfilt_nodup hbandnd).mpr hiff
    have hfl : (σ.actions.filter (fun a =>
        a.id ∈ (projNodes pid σ).flatMap (fun n =>
          (nodeBindings σ n.id).map (fun b => b.action_id)))).length =
        ((projNodes pid σ).flatMap (fun n =>
          (nodeBindings σ n.id).map (fun b => b.action_id))).length := by
      rw [← List.length_map (σ.actions.filter (fun a =>
        a.id ∈ (projNodes pid σ).flatMap (fun n =>
          (nodeBindings σ n.id).map (fun b => b.action_id)))) (fun a => a.id)]
      exact hperm.length_eq
    omega
  · -- binding count preserved
    rw [hrb, List.length_append]
    have hpart := length_filter_partition
      (fun b : DBBinding => b.source_node_id ∈ (projNodes pid σ).map (fun n => n.id))
      (fun b : DBBinding => b.source_node_id ∉ (projNodes pid σ).map (fun n => n.id))
      (fun a => by simp only [decide_not]) σ.bindings
    have hflat : ((projNodes pid σ).flatMap (fun n =>
        σ.bindings.filter (fun x => x.source_node_id = n.id))).length =
        (σ.bindings.filter (fun x =>
          x.source_node_id ∈ (projNodes pid σ).map (fun m => m.id))).length :=
      length_flatMap_key (fun b : DBBinding => b.source_node_id) σ.bindings (projNodes pid σ) hNid_nodup
    have hbd : ((projNodes pid σ).flatMap (fun n => nodeBindings σ n.id)).length =
        ((projNodes pid σ).flatMap (fun n =>
          σ.bindings.filter (fun x => x.source_node_id = n.id))).length := rfl
    omega

end Server

namespace Server

theorem snapshot_restore_roundtrip_witness :
    ∃ σr, apply_snapshot_safe ("p1") (create_current_snapshot ("p1") exDB) exDB =
        Except.ok σr ∧
      projNodes ("p1") σr = projNodes ("p1") exDB ∧
      (∀ n ∈ projNodes ("p1") exDB, nodeEvents σr n.id = nodeEvents exDB n.id) ∧
      (∀ n ∈ projNodes ("p1") exDB, nodeBindings σr n.id = nodeBindings exDB n.id) ∧
      (∀ n ∈ projNodes ("p1") exDB, ∀ b ∈ nodeBindings exDB n.id,
         findAction σr b.action_id = findAction exDB b.action_id) ∧
      σr.projects.find? (fun p => p.id = "p1") = exDB.projects.find? (fun p => p.id = "p1") ∧
      σr.nodes.length = exDB.nodes.length ∧
      σr.events.length = exDB.events.length ∧
      σr.actions.length = exDB.actions.length ∧
      σr.bindings.length = exDB.bindings.length ∧
      σr.history = exDB.history :=
  snapshot_restore_roundtrip ("p1") exDB (by decide)

/-- C3 counterexample: a project whose only action is event-linked (a
sub-choice owned by an event) loses it across restore(snapshot(P)): the
store had one action before and has zero after, so the round trip does
not preserve action counts. -/
theorem snapshot_restore_loses_event_actions :
    eventActionRoundTripCount = some 0 ∧ exDBEventAction.actions.length = 1 := by
  constructor
  · decide
  · decide

end Server
